import Mathlib

/-!
Verification of the tabular ingestion / normalization pipeline of
`src/spac/data_utils.py` (SCSAWorkflow).

Shallow embedding conventions:
* A pandas `DataFrame` is a `Table`: a list of column names, a parallel list
  of column dtypes, and a list of rows (each row a positional list of cell
  `Value`s).  Feature-only frames handled by the normalization functions are
  `FTable`s whose cells are exact rationals (floating point is modelled by ℚ).
* Python object aliasing, needed for the in-place-mutation behaviour of
  `combine_dfs` and `bin2cat`, is modelled by a `Store` (a list of tables);
  a Python variable holding a DataFrame is an index (`ℕ` reference) into the
  store.  In-place mutation is `List.set` at that reference.
* Exceptions are modelled by `Except Err`; the constructors of `Err` record
  the raise site kind (Python raises `ValueError`/`TypeError`/... with a
  message; we keep one constructor per distinct failure condition).
* `AnnData` objects are modelled with a primary matrix `x`, variable names,
  named observation-annotation columns, and named layers.  Assigning a
  DataFrame to `adata.layers[name]` follows anndata 0.8 semantics: the value
  is shape-checked and converted with `to_numpy()` in its existing row order;
  the frame's index is *not* used to realign rows.
-/

namespace Spac

/-- A cell value of a DataFrame (ints, strings, or NaN/missing). -/
inductive Value where
  | vInt (i : ℤ)
  | vStr (s : String)
  | vNone
deriving DecidableEq, Repr

/-- A pandas column dtype: `int64` or `object` (strings / mixed). -/
inductive Dtype where
  | dInt64
  | dObject
deriving DecidableEq, Repr

/-- The dtype pandas infers for a scalar being broadcast into a column. -/
def Value.dtypeOf : Value → Dtype
  | .vInt _ => .dInt64
  | _ => .dObject

/-- Python `str()` of a cell value (`str(nan) = "nan"`). -/
def Value.toStr : Value → String
  | .vInt i => toString i
  | .vStr s => s
  | .vNone => "nan"

/-- Error kinds raised by the pipeline.  Each constructor corresponds to one
raise site in `data_utils.py` (`valueError` covers the generic `ValueError`
raises; `unpackError` is the `ValueError` Python raises when
`rule.split(':')` yields more than two parts and tuple unpacking fails). -/
inductive Err where
  | valueError
  | typeError
  | fileNotFound
  | permissionDenied
  | emptyDataError
  | parserError
  | schemaMismatch
  | missingAnnot
  | unpackError
deriving DecidableEq, Repr

/-- A pandas DataFrame: named, dtyped columns and positional rows. -/
structure Table where
  cols : List String
  dtypes : List Dtype
  rows : List (List Value)
deriving DecidableEq, Repr

/-- `pd.DataFrame.empty`: true when either axis has length zero. -/
def Table.isEmpty (t : Table) : Bool := t.rows.isEmpty || t.cols.isEmpty

/-- Positional index of a named column. -/
def Table.colIdx (t : Table) (c : String) : ℕ := t.cols.indexOf c

/-- The values of the column at position `j` (one per row). -/
def Table.colValsAt (t : Table) (j : ℕ) : List Value :=
  t.rows.map (fun r => r.getD j .vNone)

/-- A store of live DataFrame objects; a Python variable is an index into it. -/
abbrev Store := List Table

/-- `select_values(data, annotation, values=None)` from `data_utils.py`.
If the frame is non-empty the annotation column must exist (`ValueError`
otherwise); with a value list given, rows whose annotation value is in the
list are kept (`Series.isin`); otherwise the frame is returned as is.  The
empty-result warning is non-fatal and not modelled. -/
def select_values (data : Table) (annot : String) (values : Option (List Value)) :
    Except Err Table :=
  if ¬ data.isEmpty then
    if annot ∉ data.cols then .error .valueError
    else
      match values with
      | some vs =>
          .ok { data with
                rows := data.rows.filter (fun r => (r.getD (data.colIdx annot) .vNone) ∈ vs) }
      | none => .ok data
  else .ok data

/-! ### Numeric feature frames and the normalization engine -/

/-- A feature-only DataFrame: named columns, rational-valued rows. -/
structure FTable where
  cols : List String
  rows : List (List ℚ)
deriving DecidableEq, Repr

/-- The column at position `j` as a list (one entry per row). -/
def FTable.col (t : FTable) (j : ℕ) : List ℚ :=
  t.rows.map (fun r => r.getD j 0)

/-- Linear-interpolation quantile of an already sorted nonempty list, as
computed by `Series.quantile` (numpy `percentile`, `interpolation='linear'`):
with `h = q*(n-1)`, the result is `v⟨h⟩ + frac(h) * (v⟨h⟩₊₁ - v⟨h⟩)`. -/
def quantileOfSorted (v : List ℚ) (q : ℚ) : ℚ :=
  let n := v.length
  let h : ℚ := q * ((n : ℚ) - 1)
  let i : ℕ := (⌊h⌋).toNat
  let lo := v.getD i 0
  let hi := v.getD (i + 1) lo
  lo + (h - (i : ℚ)) * (hi - lo)

/-- `Series.quantile q`: sort the column, then interpolate linearly. -/
def quantile (v : List ℚ) (q : ℚ) : ℚ :=
  quantileOfSorted (v.insertionSort (· ≤ ·)) q

/-- The `q`-quantile of column `j` of a feature frame
(`features.quantile(q)` evaluated at one column). -/
def FTable.colQuantile (t : FTable) (q : ℚ) (j : ℕ) : ℚ :=
  quantile (t.col j) q

/-- One row of `subtract_min_quantile`: subtract the per-column value `qs j`
and clip negatives to zero, walking the row positionally from column `j₀`. -/
def subClipRow (qs : ℕ → ℚ) : ℕ → List ℚ → List ℚ
  | _, [] => []
  | j, x :: xs => max 0 (x - qs j) :: subClipRow qs (j + 1) xs

/-- `subtract_min_quantile(features, min_quantile)`: subtract each column's
`min_quantile`-quantile from that column, then clip negative values to 0. -/
def subtract_min_quantile (features : FTable) (min_quantile : ℚ) : FTable :=
  { cols := features.cols
    rows := features.rows.map (subClipRow (features.colQuantile min_quantile) 0) }

/-- Elementwise clip into `[lo, hi]` (`DataFrame.clip(lower, upper, axis=1)`;
numpy applies the lower bound first, then the upper bound). -/
def clipVal (lo hi x : ℚ) : ℚ := min hi (max lo x)

/-- One row of the clip step of `rescale_features`, positionally from `j₀`. -/
def clipRow (lo hi : ℕ → ℚ) : ℕ → List ℚ → List ℚ
  | _, [] => []
  | j, x :: xs => clipVal (lo j) (hi j) x :: clipRow lo hi (j + 1) xs

/-- Minimum of a column (`0` for an empty column, which sklearn never sees). -/
def listMin : List ℚ → ℚ
  | [] => 0
  | x :: xs => xs.foldl min x

/-- Maximum of a column (`0` for an empty column). -/
def listMax : List ℚ → ℚ
  | [] => 0
  | x :: xs => xs.foldl max x

/-- One row of sklearn `MinMaxScaler` with feature range `[0,1]`:
`(x - min_j) / range_j`, where a zero range is replaced by 1
(`_handle_zeros_in_scale`). -/
def scaleRow (mn mx : ℕ → ℚ) : ℕ → List ℚ → List ℚ
  | _, [] => []
  | j, x :: xs =>
      (x - mn j) / (if mx j - mn j = 0 then 1 else mx j - mn j) :: scaleRow mn mx (j + 1) xs

/-- The clip stage of `rescale_features`: clip every column into the range
between its `min_quantile`- and `max_quantile`-quantile values. -/
def clipStage (features : FTable) (min_quantile max_quantile : ℚ) : FTable :=
  { cols := features.cols
    rows := features.rows.map
      (clipRow (features.colQuantile min_quantile) (features.colQuantile max_quantile) 0) }

/-- `rescale_features(features, min_quantile=0.01, max_quantile=0.99)`:
clip each column to its quantile range, then min-max scale the clipped
matrix with `MinMaxScaler` and rebuild a frame with the clipped frame's
column names (row index reset positionally). -/
def rescale_features (features : FTable) (min_quantile max_quantile : ℚ) : FTable :=
  let features_clipped := clipStage features min_quantile max_quantile
  { cols := features_clipped.cols
    rows := features_clipped.rows.map
      (scaleRow (fun j => listMin (features_clipped.col j))
                (fun j => listMax (features_clipped.col j)) 0) }

/-! ### AnnData and the layer-writing wrappers -/

/-- An annotated matrix: primary matrix `x` over variables `var`, named
observation-annotation columns, and named layers. -/
structure AnnData where
  var : List String
  x : List (List ℚ)
  obsAnnots : List (String × List String)
  layers : List (String × List (List ℚ))
deriving DecidableEq, Repr

/-- `adata.to_df()`: the primary matrix as a feature frame. -/
def AnnData.to_df (a : AnnData) : FTable := ⟨a.var, a.x⟩

/-- `adata.obs[annotation]`: the values of one annotation column. -/
def AnnData.obsCol (a : AnnData) (annot : String) : List String :=
  ((a.obsAnnots.find? (fun p => p.1 = annot)).map Prod.snd).getD []

/-- `adata.layers[name] = value` (anndata 0.8): the value is shape-checked
against `n_obs` and stored in its existing row order (a DataFrame is
converted with `to_numpy()`; its index is not used to realign rows). -/
def AnnData.setLayer (a : AnnData) (name : String) (m : List (List ℚ)) :
    Except Err AnnData :=
  if m.length = a.x.length then
    .ok { a with layers :=
      if a.layers.any (fun p => p.1 = name) then
        a.layers.map (fun p => if p.1 = name then (name, m) else p)
      else a.layers ++ [(name, m)] }
  else .error .valueError

/-- Look up a layer by name. -/
def AnnData.getLayer (a : AnnData) (name : String) : Option (List (List ℚ)) :=
  (a.layers.find? (fun p => p.1 = name)).map Prod.snd

/-- `add_rescaled_features(adata, min_quantile, max_quantile, layer)`:
rescale `adata.to_df()` and write the result into a new layer. -/
def add_rescaled_features (adata : AnnData) (min_quantile max_quantile : ℚ)
    (layer : String) : Except Err AnnData :=
  adata.setLayer layer (rescale_features adata.to_df min_quantile max_quantile).rows

/-- Helper for `uniqueFirst`: drop values already seen. -/
def uniqueFirstAux (seen : List String) : List String → List String
  | [] => []
  | x :: xs =>
      if x ∈ seen then uniqueFirstAux seen xs
      else x :: uniqueFirstAux (seen ++ [x]) xs

/-- First-occurrence distinct values, as returned by `Series.unique()`. -/
def uniqueFirst (l : List String) : List String := uniqueFirstAux [] l

/-- `subtract_min_per_region(adata, annotation, layer, min_quantile)`:
for each distinct region (in first-encountered order) select that region's
rows of the primary matrix (in original order), apply
`subtract_min_quantile` to them, concatenate the per-region results with
`pd.concat`, and write the concatenation into a new layer.  `pd.concat` of
an empty list raises, hence the error on a frame with no regions. -/
def subtract_min_per_region (adata : AnnData) (annot : String) (layer : String)
    (min_quantile : ℚ) : Except Err AnnData :=
  let ann := adata.obsCol annot
  let regions := uniqueFirst ann
  let original := adata.to_df
  let new_df_list := regions.map (fun region =>
    (subtract_min_quantile
      ⟨original.cols, ((original.rows.zip ann).filter (fun p => p.2 = region)).map Prod.fst⟩
      min_quantile).rows)
  if regions.isEmpty then .error .valueError
  else adata.setLayer layer new_df_list.flatten

/-- Specification-side counterpart of `subtract_min_per_region`, following
the spec's invariant that row `i` of the written layer holds the transformed
values of observation `i`: each observation's row is transformed with the
column quantiles of its own region, and rows stay in observation order. -/
def subtract_min_per_region_aligned (adata : AnnData) (annot : String)
    (min_quantile : ℚ) : List (List ℚ) :=
  let ann := adata.obsCol annot
  (adata.x.zip ann).map (fun p =>
    let regionT : FTable :=
      ⟨adata.var, ((adata.x.zip ann).filter (fun r => r.2 = p.2)).map Prod.fst⟩
    subClipRow (regionT.colQuantile min_quantile) 0 p.1)

/-! ### Row selection and downsampling -/

/-- Lexicographic comparison of character lists (Python/pandas string
ordering by code point). -/
def charListLe : List Char → List Char → Bool
  | [], _ => true
  | _ :: _, [] => false
  | a :: as, b :: bs => if a = b then charListLe as bs else a.val < b.val

/-- A total order on cell values used to model pandas' sorting of group keys
in `groupby` (ints before strings; pandas sorts keys of a single dtype, and
every property stated below is invariant under the enumeration order of the
groups). -/
def Value.leb : Value → Value → Bool
  | .vNone, _ => true
  | .vInt _, .vNone => false
  | .vStr _, .vNone => false
  | .vInt a, .vInt b => a ≤ b
  | .vInt _, .vStr _ => true
  | .vStr _, .vInt _ => false
  | .vStr a, .vStr b => charListLe a.toList b.toList

/-- The rows of `e` on success, `[]` on an exception. -/
def resRows (e : Except Err Table) : List (List Value) :=
  match e with
  | .ok t => t.rows
  | .error _ => []

/-- The annotation value of a row (`data[annotation]` evaluated at one row). -/
def Table.keyAt (data : Table) (annot : String) (r : List Value) : Value :=
  r.getD (data.colIdx annot) .vNone

/-- The rows of one annotation group, in original order
(`data.groupby(annotation)` keeps each group's rows in frame order). -/
def Table.groupRows (data : Table) (annot : String) (g : Value) : List (List Value) :=
  data.rows.filter (fun r => data.keyAt annot r = g)

/-- The non-`NaN` annotation values (the entries `groupby`/`value_counts`
count; both drop `NaN` keys). -/
def Table.nonNullAnnVals (data : Table) (annot : String) : List Value :=
  (data.rows.map (data.keyAt annot)).filter (fun v => v ≠ .vNone)

/-- The distinct group keys in pandas `groupby` order (sorted). -/
def Table.downsampleKeys (data : Table) (annot : String) : List Value :=
  (data.nonNullAnnVals annot).dedup.insertionSort (fun a b => Value.leb a b = true)

/-- `downsample_cells(data, annotation, n_samples=None, stratify=False,
rand=False)`.  `sampleFn` models `DataFrame.sample(k)` (a uniform random
`k`-row subset of the group, in pandas drawn without replacement); the
deterministic embedding takes it as a parameter.  Group keys follow pandas
`groupby`: `NaN` annotation values are dropped, keys are sorted, and each
group keeps its rows in original order.  `value_counts(normalize=True)`
divides each group's size by the number of non-`NaN` entries; the share
`(freqs * n_samples).astype(int)` truncates, which for these nonnegative
exact rationals is `(count * n) / total` in natural division.  `pd.concat`
of an empty list of per-group samples raises, hence the error when the
stratified path finds no groups. -/
def downsample_cells (sampleFn : List (List Value) → ℕ → List (List Value))
    (data : Table) (annot : String) (n_samples : Option ℕ)
    (stratify : Bool) (rand : Bool) : Except Err Table :=
  if annot ∉ data.cols then .error .valueError
  else
    match n_samples with
    | none => .ok data
    | some n =>
      let keys := data.downsampleKeys annot
      let total := (data.nonNullAnnVals annot).length
      if stratify then
        let samples := keys.map (fun g =>
          let group_data := data.groupRows annot g
          let n_group_samples := group_data.length * n / total
          if rand then sampleFn group_data (min n_group_samples group_data.length)
          else group_data.take (min n_group_samples group_data.length))
        if keys.isEmpty then .error .valueError
        else .ok { data with rows := samples.flatten }
      else
        .ok { data with rows := (keys.map (fun g =>
          let group_data := data.groupRows annot g
          group_data.take (min n group_data.length))).flatten }

/-! ### Annotation mapping (`append_observation`) -/

/-- Split a character list at every occurrence of `c`
(Python `str.split(sep)` on the underlying characters). -/
def splitChar (c : Char) : List Char → List (List Char)
  | [] => [[]]
  | x :: xs =>
    let rest := splitChar c xs
    if x = c then [] :: rest
    else
      match rest with
      | [] => [[x]]
      | y :: ys => (x :: y) :: ys

/-- Python `rule.split(':')`. -/
def pySplit (s : String) (c : Char) : List String :=
  (splitChar c s.toList).map (fun l => String.mk l)

/-- `Series.astype(dtype)` on one cell: converting to `int64` parses
stringified integers and raises on anything unparseable (including `NaN`);
converting to `object` keeps the cell as is. -/
def astypeVal : Dtype → Value → Except Err Value
  | .dObject, v => .ok v
  | .dInt64, .vInt i => .ok (.vInt i)
  | .dInt64, .vStr s =>
      match s.toInt? with
      | some i => .ok (.vInt i)
      | none => .error .valueError
  | .dInt64, .vNone => .error .valueError

/-- The new column's value for one row after the rule loop of
`append_observation`: starting from the sentinel, each rule whose source
part equals the row's stringified source value overwrites the value with the
rule's target part (rules applied in list order, later matches win).  Only
called on rules that split into exactly two parts. -/
def ruleStep (srcStr : String) (acc : String) (rule : String) : String :=
  match pySplit rule ':' with
  | [source_value, new_value] => if srcStr = source_value then new_value else acc
  | _ => acc

/-- One iteration of the rule loop of `append_observation` on the whole
frame: `result_data.loc[result_data[source] == source_value, new] =
new_value`, or the `ValueError` of tuple unpacking when the rule does not
split into exactly two parts. -/
def applyRule (jsrc jnew : ℕ) (t : Table) (rule : String) : Except Err Table :=
  match pySplit rule ':' with
  | [source_value, new_value] =>
      .ok { t with rows := t.rows.map (fun r =>
        if r.getD jsrc .vNone = .vStr source_value then r.set jnew (.vStr new_value) else r) }
  | _ => .error .unpackError

/-- The effect of one mapping rule on one row (row-wise view of the
`loc`-assignment of `applyRule`; rows are updated independently). -/
def ruleRowStep (jsrc jnew : ℕ) (r : List Value) (rule : String) : List Value :=
  match pySplit rule ':' with
  | [source_value, new_value] =>
      if r.getD jsrc .vNone = .vStr source_value then r.set jnew (.vStr new_value) else r
  | _ => r

/-- The effect of the whole rule loop on one row. -/
def applyRulesRow (jsrc jnew : ℕ) (rules : List String) (r : List Value) : List Value :=
  rules.foldl (ruleRowStep jsrc jnew) r

/-- Value of a successful computation, with a default for the error case. -/
def exceptGetD {ε α : Type} (e : Except ε α) (d : α) : α :=
  match e with
  | .ok v => v
  | .error _ => d

/-- `append_observation(data, source_column, new_column, mapping_rules)`.
Validations: the source column must exist, the new column must not, every
rule must contain `':'`.  Then on a copy of the frame: initialise the new
column to `"Not_Mapped"`, stringify the source column (its original dtype is
remembered), apply the rules in order, and convert the source column back to
its original dtype.  The store is unchanged at the input reference; the
result is a fresh reference (the copy). -/
def append_observation (st : Store) (ref : ℕ) (source_column new_column : String)
    (mapping_rules : List String) : Store × Except Err ℕ :=
  match st.get? ref with
  | none => (st, .error .valueError)
  | some data =>
    if source_column ∉ data.cols then (st, .error .valueError)
    else if new_column ∈ data.cols then (st, .error .valueError)
    else if mapping_rules.any (fun rule => ¬ rule.toList.contains ':') then
      (st, .error .valueError)
    else
      let jsrc := data.colIdx source_column
      let jnew := data.cols.length
      let original_dtype := data.dtypes.getD jsrc .dObject
      let t1 : Table :=
        ⟨data.cols ++ [new_column], data.dtypes ++ [.dObject],
         data.rows.map (fun r => r ++ [.vStr "Not_Mapped"])⟩
      let t2 : Table :=
        { t1 with dtypes := t1.dtypes.set jsrc .dObject,
                  rows := t1.rows.map (fun r =>
                    r.set jsrc (.vStr ((r.getD jsrc .vNone).toStr))) }
      match mapping_rules.foldlM (applyRule jsrc jnew) t2 with
      | .error e => (st, .error e)
      | .ok t3 =>
        match t3.rows.mapM (fun r =>
            (astypeVal original_dtype (r.getD jsrc .vNone)).map (fun v => r.set jsrc v)) with
        | .error e => (st, .error e)
        | .ok rows4 =>
            (st ++ [⟨t3.cols, t3.dtypes.set jsrc original_dtype, rows4⟩], .ok st.length)

/-! ### CSV ingestion and merging -/

/-- What the file system and CSV parsing yield for one path: the file may be
missing, unreadable, empty/unparseable, or parse to a frame. -/
inductive FileStat where
  | missing
  | unreadable
  | emptyFile
  | malformed
  | parsed (t : Table)
deriving DecidableEq, Repr

/-- Order-independent equality of column name sets. -/
def sameSet (a b : List String) : Bool :=
  a.all (fun x => x ∈ b) && b.all (fun x => x ∈ a)

/-- The schema check of `load_csv_files`/`combine_dfs`: same column count
(list length) and same column name set. -/
def schemaOk (meta current : List String) : Bool :=
  meta.length = current.length && sameSet meta current

/-- The per-file loop of `load_csv_files`, carrying the meta-schema
accumulator (the columns of the first parsed file; re-acquired while the
accumulator is empty, exactly as in the source). -/
def loadLoop (fs : String → FileStat) (meta : List String) :
    List String → Except Err (List (String × Table))
  | [] => .ok []
  | file_name :: rest =>
    match fs file_name with
    | .missing => .error .fileNotFound
    | .unreadable => .error .permissionDenied
    | .emptyFile => .error .emptyDataError
    | .malformed => .error .parserError
    | .parsed current_df =>
      let meta' := if meta.isEmpty then current_df.cols else meta
      if schemaOk meta' current_df.cols then
        (loadLoop fs meta' rest).map (fun l => (file_name, current_df) :: l)
      else .error .schemaMismatch

/-- `load_csv_files(file_names)`: read each path in order (missing →
`FileNotFoundError`, unreadable → `PermissionError`, empty/malformed →
`TypeError`), check its columns against the first file's schema
(`ValueError` on mismatch), and return the `(path, frame)` pairs in input
order.  The single-string case is normalised to a one-element list by the
source before this loop. -/
def load_csv_files (fs : String → FileStat) (file_names : List String) :
    Except Err (List (String × Table)) :=
  loadLoop fs [] file_names

/-- Overwrite or append a column with one broadcast scalar value
(`current_df[name] = value`). -/
def Table.setOrAddCol (t : Table) (name : String) (v : Value) : Table :=
  if name ∈ t.cols then
    let j := t.colIdx name
    { cols := t.cols
      dtypes := t.dtypes.set j v.dtypeOf
      rows := t.rows.map (fun r => r.set j v) }
  else
    { cols := t.cols ++ [name]
      dtypes := t.dtypes ++ [v.dtypeOf]
      rows := t.rows.map (fun r => r ++ [v]) }

/-- Broadcast one file's annotation values into its frame, in annotation
column order (the `iteritems()` loop of `combine_dfs`). -/
def applyFileAnnots (t : Table) (l : List (String × Value)) : Table :=
  l.foldl (fun t p => t.setOrAddCol p.1 p.2) t

/-- `pd.concat([acc, cur])` for frames with equal column sets: `cur`'s rows
are appended, each reordered to `acc`'s column positions. -/
def concatAligned (acc cur : Table) : Table :=
  { acc with rows := acc.rows ++ cur.rows.map (fun r =>
      acc.cols.map (fun c => r.getD (cur.colIdx c) .vNone)) }

/-- The per-file loop of `combine_dfs`, carrying the store, the meta-schema
accumulator and the combined frame.  For each `(file name, reference)`: the
schema is checked first, then the annotations index must contain the file
name (`ValueError` otherwise, returned with the store as already mutated by
the previous iterations); then the file's annotation values are written into
the referenced frame *in place* and the mutated frame is concatenated into
the accumulator (copied while the accumulator is still empty). -/
def combineLoop (anns : List (String × List (String × Value))) :
    Store → List String → Table → List (String × ℕ) → Store × Except Err Table
  | st, _, comb, [] => (st, .ok comb)
  | st, meta, comb, (file_name, ref) :: rest =>
    let current_df := st.getD ref ⟨[], [], []⟩
    let meta' := if meta.isEmpty then current_df.cols else meta
    if schemaOk meta' current_df.cols then
      match anns.find? (fun p => p.1 = file_name) with
      | none => (st, .error .missingAnnot)
      | some fa =>
        let current_df' := applyFileAnnots current_df fa.2
        let st' := st.set ref current_df'
        let comb' := if comb.isEmpty then current_df' else concatAligned comb current_df'
        combineLoop anns st' meta' comb' rest
    else (st, .error .schemaMismatch)

/-- `combine_dfs(dataframes, annotations)`: `dataframes` is a list of
`(file name, frame reference)` pairs, `annotations` a frame indexed by file
name (modelled as an association list from file name to its annotation
column/value pairs).  Returns the final store and the combined frame
(`reset_index(drop=True)` re-numbers the positional index, which this row
model does not carry). -/
def combine_dfs (st : Store) (dataframes : List (String × ℕ))
    (anns : List (String × List (String × Value))) : Store × Except Err Table :=
  combineLoop anns st [] ⟨[], [], []⟩ dataframes

/-! ### Categorical collapsing (`bin2cat`) -/

/-- The matched one-hot column names holding `1` in a row
(`cell_labels_df.columns[row == 1]`), for labels paired with their column
positions. -/
def labelsWithOne (labelIdxs : List (String × ℕ)) (r : List Value) : List String :=
  (labelIdxs.filter (fun p => r.getD p.2 .vNone = .vInt 1)).map Prod.fst

/-- `get_columns_with_1(row)`: more than one matched column holding `1`
raises; exactly one yields that column's name; none yields `NaN`. -/
def getColumnsWith1 (labelIdxs : List (String × ℕ)) (r : List Value) :
    Except Err Value :=
  if (labelsWithOne labelIdxs r).length > 1 then .error .valueError
  else
    match labelsWithOne labelIdxs r with
    | [n] => .ok (.vStr n)
    | _ => .ok .vNone

/-- The value `get_columns_with_1` yields on a non-ambiguous row: the single
matched column name holding `1`, or `NaN`. -/
def bin2catVal (labelIdxs : List (String × ℕ)) (r : List Value) : Value :=
  match labelsWithOne labelIdxs r with
  | [n] => .vStr n
  | _ => .vNone

/-- `bin2cat(data, one_hot_annotations, new_annotation)`.  `matcher` models
`regex_search_list` from `spac/utils.py` (not part of the sources given):
it returns the column names matched by the regular-expression patterns.  On
success the new categorical column is appended to the referenced frame *in
place* and the same reference is returned.  With an empty pattern list the
source falls through its final `if` and implicitly returns `None` without
touching the frame. -/
def bin2cat (matcher : List String → List String → List String)
    (st : Store) (ref : ℕ) (oneHotAnnots : List String) (newAnnot : String) :
    Store × Except Err (Option ℕ) :=
  match st.get? ref with
  | none => (st, .error .valueError)
  | some data =>
    if newAnnot ∈ data.cols then (st, .error .valueError)
    else if oneHotAnnots.length > 0 then
      let all_cell_labels := matcher oneHotAnnots data.cols
      if all_cell_labels.length > 0 then
        let labelIdxs := all_cell_labels.map (fun c => (c, data.colIdx c))
        match data.rows.mapM (getColumnsWith1 labelIdxs) with
        | .error e => (st, .error e)
        | .ok catVals =>
          (st.set ref ⟨data.cols ++ [newAnnot], data.dtypes ++ [.dObject],
                       (data.rows.zip catVals).map (fun p => p.1 ++ [p.2])⟩,
           .ok (some ref))
      else (st, .error .valueError)
    else (st, .ok none)

/-! ### The `DataFrame.sample` contract and concrete instances used below -/

/-- Contract of `DataFrame.sample(k)` for `k` at most the frame's length:
it returns exactly `k` rows, all drawn from the frame.  (That the draw is
uniformly random is a distributional property of pandas' RNG with no
deterministic counterpart; the theorems below hold for every selector
satisfying this contract.) -/
def sampleOracle (sampleFn : List (List Value) → ℕ → List (List Value)) : Prop :=
  ∀ l k, k ≤ l.length → (sampleFn l k).length = k ∧ ∀ x ∈ sampleFn l k, x ∈ l

/-- The worked example of the `downsample_cells` docstring: annotation
groups of sizes 3 (`a`), 2 (`b`) and 1 (`c`). -/
def tblEx : Table :=
  ⟨["annotation", "value"], [.dObject, .dInt64],
   [[.vStr "a", .vInt 1], [.vStr "a", .vInt 2], [.vStr "a", .vInt 3],
    [.vStr "b", .vInt 4], [.vStr "b", .vInt 5], [.vStr "c", .vInt 6]]⟩

/-- An `AnnData` whose annotation regions interleave (`a`, `b`, `a`):
one feature, rows `0`, `0`, `10`. -/
def adataEx : AnnData :=
  ⟨["m"], [[0], [0], [10]], [("region", ["a", "b", "a"])], []⟩

/-- A one-column feature frame with rows `0` and `1`. -/
def ftEx : FTable := ⟨["m"], [[0], [1]]⟩

/-- An empty frame (no rows) used by the `select_values` witness. -/
def tblEmptyEx : Table := ⟨["a"], [.dObject], []⟩

/-- A one-row frame used by the `select_values` witness. -/
def tblOneRowEx : Table := ⟨["a"], [.dInt64], [[.vInt 1]]⟩

/-- A second one-row frame, for the `combine_dfs` witness. -/
def tblOneRowEx2 : Table := ⟨["a"], [.dInt64], [[.vInt 2]]⟩

/-- A two-row frame with a string source column, for `append_observation`. -/
def tblSrcEx : Table :=
  ⟨["s"], [.dObject], [[.vStr "x"], [.vStr "z"]]⟩

/-- A one-hot frame (`A`, `B` one-hot columns, `v` a value column). -/
def tblOneHotEx : Table :=
  ⟨["A", "B", "v"], [.dInt64, .dInt64, .dInt64],
   [[.vInt 1, .vInt 0, .vInt 7], [.vInt 0, .vInt 1, .vInt 8],
    [.vInt 0, .vInt 0, .vInt 9]]⟩

/-- File-system oracle for the `load_csv_files` witness: three parseable
files; `f1`/`f2` share a column set (in different orders), `f3` differs. -/
def fsEx : String → FileStat := fun p =>
  if p = "f1" then .parsed ⟨["a", "b"], [.dInt64, .dInt64], [[.vInt 1, .vInt 2]]⟩
  else if p = "f2" then .parsed ⟨["b", "a"], [.dInt64, .dInt64], [[.vInt 3, .vInt 4]]⟩
  else if p = "f3" then .parsed ⟨["a", "c"], [.dInt64, .dInt64], [[.vInt 5, .vInt 6]]⟩
  else .missing

/-- The parsed frames of `fsEx`, as a total function. -/
def tblsEx : String → Table := fun p =>
  if p = "f1" then ⟨["a", "b"], [.dInt64, .dInt64], [[.vInt 1, .vInt 2]]⟩
  else if p = "f2" then ⟨["b", "a"], [.dInt64, .dInt64], [[.vInt 3, .vInt 4]]⟩
  else ⟨["a", "c"], [.dInt64, .dInt64], [[.vInt 5, .vInt 6]]⟩

/-! ## Helper lemmas -/

theorem getD_map_of_lt {α β : Type} (f : α → β) (l : List α) (i : ℕ) (d : β) (d' : α)
    (h : i < l.length) : (l.map f).getD i d = f (l.getD i d') := by
  induction l generalizing i with
  | nil => simp at h
  | cons x xs ih =>
      cases i with
      | zero => simp [List.getD]
      | succ k =>
          simp only [List.length_cons, Nat.succ_lt_succ_iff] at h
          simpa [List.getD] using ih k h

theorem subClipRow_length (qs : ℕ → ℚ) (j : ℕ) (l : List ℚ) :
    (subClipRow qs j l).length = l.length := by
  induction l generalizing j with
  | nil => rfl
  | cons x xs ih => simp [subClipRow, ih]

theorem subClipRow_getD (qs : ℕ → ℚ) (l : List ℚ) (j k : ℕ) (h : k < l.length) :
    (subClipRow qs j l).getD k 0 = max 0 (l.getD k 0 - qs (j + k)) := by
  induction l generalizing j k with
  | nil => simp at h
  | cons x xs ih =>
      cases k with
      | zero => simp [subClipRow, List.getD]
      | succ m =>
          simp only [List.length_cons, Nat.succ_lt_succ_iff] at h
          have := ih (j + 1) m h
          simpa [subClipRow, List.getD, Nat.add_assoc, Nat.add_comm 1 m] using this

/-! ## Claim C8 -/

/-- Claim C8: `select_values` returns an empty input table unchanged with no
validation (no error even when the annotation column is absent), while on a
non-empty table an absent annotation column always raises `ValueError`. -/
theorem select_values_empty_bypasses_validation (data : Table) (annot : String)
    (values : Option (List Value)) :
    (data.isEmpty = true → select_values data annot values = .ok data) ∧
    (data.isEmpty = false → annot ∉ data.cols →
      select_values data annot values = .error .valueError) := by
  constructor
  · intro h
    simp [select_values, h]
  · intro h hmem
    simp [select_values, h, hmem]

/-- Witness for C8: a concrete empty table is returned unchanged although
column `b` is absent, and the same lookup on a concrete non-empty table
raises. -/
theorem select_values_empty_bypasses_validation_witness :
    select_values tblEmptyEx "b" none = .ok tblEmptyEx ∧
    select_values tblOneRowEx "b" none = .error .valueError :=
  ⟨(select_values_empty_bypasses_validation tblEmptyEx "b" none).1 (by decide),
   (select_values_empty_bypasses_validation tblOneRowEx "b" none).2 (by decide) (by decide)⟩

/-! ## Claim C7 -/

/-- Claim C7: `subtract_min_quantile` preserves the row count and row order
(row `i` of the output is computed from row `i` of the input), each output
value equals `max 0 (input − column min-quantile)`, and no output value is
negative. -/
theorem subtract_min_quantile_nonneg (features : FTable) (min_quantile : ℚ) (i j : ℕ)
    (hi : i < features.rows.length) (hj : j < (features.rows.getD i []).length) :
    (subtract_min_quantile features min_quantile).rows.length = features.rows.length ∧
    (subtract_min_quantile features min_quantile).cols = features.cols ∧
    ((subtract_min_quantile features min_quantile).rows.getD i []).getD j 0
      = max 0 ((features.rows.getD i []).getD j 0 - features.colQuantile min_quantile j) ∧
    0 ≤ ((subtract_min_quantile features min_quantile).rows.getD i []).getD j 0 := by
  have hrow : (subtract_min_quantile features min_quantile).rows.getD i []
      = subClipRow (features.colQuantile min_quantile) 0 (features.rows.getD i []) := by
    simpa [subtract_min_quantile] using
      getD_map_of_lt (subClipRow (features.colQuantile min_quantile) 0) features.rows i [] [] hi
  refine ⟨by simp [subtract_min_quantile], rfl, ?_, ?_⟩
  · rw [hrow, subClipRow_getD _ _ _ _ hj]
    simp
  · rw [hrow, subClipRow_getD _ _ _ _ hj]
    simp

/-- Witness for C7 at a concrete two-row frame and `min_quantile = 0`. -/
theorem subtract_min_quantile_nonneg_witness :
    (subtract_min_quantile ftEx 0).rows.length = ftEx.rows.length ∧
    (subtract_min_quantile ftEx 0).cols = ftEx.cols ∧
    ((subtract_min_quantile ftEx 0).rows.getD 1 []).getD 0 0
      = max 0 ((ftEx.rows.getD 1 []).getD 0 0 - ftEx.colQuantile 0 0) ∧
    0 ≤ ((subtract_min_quantile ftEx 0).rows.getD 1 []).getD 0 0 :=
  subtract_min_quantile_nonneg ftEx 0 1 0 (by norm_num [ftEx]) (by norm_num [ftEx])

/-! ## Claim C1 (corrected) -/

/-- Counterexample to C1 as stated: with the docstring's own example frame
(annotation groups of sizes 3, 2, 1) and `n_samples = 2`, the non-stratified
path returns 5 rows — more than `n_samples`.  (The rule `head(min(n, len))`
is applied per group, so only the per-group count is bounded by `n`.) -/
theorem downsample_cells_total_can_exceed_n_samples :
    (resRows (downsample_cells (fun l k => l.take k) tblEx "annotation" (some 2)
        false false)).length = 5 ∧ ¬ (5 ≤ 2) := by
  constructor
  · decide
  · decide

/-! ## Claim C2 (code bug) -/

/-- Claim C2 fails on the code: on an `AnnData` whose regions interleave
(`a`, `b`, `a`; one feature with rows `0`, `0`, `10`),
`subtract_min_per_region` writes the layer in region-grouped order
`[[0], [99/10], [0]]` — row 1 of the layer holds the transformed values of
observation 2 — while the spec's row-aligned layer (the transformed values
of observation `i` in row `i`, `subtract_min_per_region_aligned`) is
`[[0], [0], [99/10]]`.  The two disagree, so the written layer does not
have the primary matrix's row order. -/
theorem subtract_min_per_region_misaligns_layer :
    (subtract_min_per_region adataEx "region" "L" (1/100)).map
        (fun a => a.getLayer "L") = .ok (some [[0], [99/10], [0]]) ∧
    subtract_min_per_region_aligned adataEx "region" (1/100)
        = [[0], [0], [99/10]] ∧
    ([[0], [99/10], [0]] : List (List ℚ)) ≠ [[0], [0], [99/10]] := by
  refine ⟨?_, ?_, ?_⟩
  · simp [subtract_min_per_region, adataEx, AnnData.obsCol, uniqueFirst,
      uniqueFirstAux, AnnData.to_df, subtract_min_quantile, FTable.colQuantile,
      quantile, quantileOfSorted, FTable.col, subClipRow, AnnData.setLayer,
      AnnData.getLayer, List.insertionSort, List.orderedInsert, Except.map]
    norm_num [List.insertionSort, List.orderedInsert, subClipRow]
  · simp [subtract_min_per_region_aligned, adataEx, AnnData.obsCol,
      AnnData.to_df, subtract_min_quantile, FTable.colQuantile, quantile,
      quantileOfSorted, FTable.col, subClipRow, List.insertionSort,
      List.orderedInsert]
    norm_num [List.insertionSort, List.orderedInsert, subClipRow]
  · norm_num

/-! ## Claim C3 -/

theorem foldl_min_le_init (l : List ℚ) (a : ℚ) : l.foldl min a ≤ a := by
  induction l generalizing a with
  | nil => simp
  | cons x xs ih => exact le_trans (ih (min a x)) (min_le_left a x)

theorem foldl_min_le_mem (l : List ℚ) (a x : ℚ) (hx : x ∈ l) : l.foldl min a ≤ x := by
  induction l generalizing a with
  | nil => simp at hx
  | cons y ys ih =>
      rcases List.mem_cons.mp hx with h | h
      · subst h
        exact le_trans (foldl_min_le_init ys (min a x)) (min_le_right a x)
      · exact ih (min a y) h

theorem listMin_le (l : List ℚ) (x : ℚ) (hx : x ∈ l) : listMin l ≤ x := by
  cases l with
  | nil => simp at hx
  | cons y ys =>
      rcases List.mem_cons.mp hx with h | h
      · subst h
        exact foldl_min_le_init ys x
      · exact foldl_min_le_mem ys y x h

theorem init_le_foldl_max (l : List ℚ) (a : ℚ) : a ≤ l.foldl max a := by
  induction l generalizing a with
  | nil => simp
  | cons x xs ih => exact le_trans (le_max_left a x) (ih (max a x))

theorem mem_le_foldl_max (l : List ℚ) (a x : ℚ) (hx : x ∈ l) : x ≤ l.foldl max a := by
  induction l generalizing a with
  | nil => simp at hx
  | cons y ys ih =>
      rcases List.mem_cons.mp hx with h | h
      · subst h
        exact le_trans (le_max_right a x) (init_le_foldl_max ys (max a x))
      · exact ih (max a y) h

theorem le_listMax (l : List ℚ) (x : ℚ) (hx : x ∈ l) : x ≤ listMax l := by
  cases l with
  | nil => simp at hx
  | cons y ys =>
      rcases List.mem_cons.mp hx with h | h
      · subst h
        exact init_le_foldl_max ys x
      · exact mem_le_foldl_max ys y x h

theorem getD_mem_of_lt {α : Type} (l : List α) (i : ℕ) (d : α) (h : i < l.length) :
    l.getD i d ∈ l := by
  have he : l.getD i d = l[i] := by
    simp [List.getD, List.getElem?_eq_getElem h]
  rw [he]
  exact List.getElem_mem h

theorem clipRow_length (lo hi : ℕ → ℚ) (j : ℕ) (l : List ℚ) :
    (clipRow lo hi j l).length = l.length := by
  induction l generalizing j with
  | nil => rfl
  | cons x xs ih => simp [clipRow, ih]

theorem clipRow_getD (lo hi : ℕ → ℚ) (l : List ℚ) (j k : ℕ) (h : k < l.length) :
    (clipRow lo hi j l).getD k 0 = clipVal (lo (j + k)) (hi (j + k)) (l.getD k 0) := by
  induction l generalizing j k with
  | nil => simp at h
  | cons x xs ih =>
      cases k with
      | zero => simp [clipRow, List.getD]
      | succ m =>
          simp only [List.length_cons, Nat.succ_lt_succ_iff] at h
          have := ih (j + 1) m h
          simpa [clipRow, List.getD, Nat.add_assoc, Nat.add_comm 1 m] using this

theorem scaleRow_length (mn mx : ℕ → ℚ) (j : ℕ) (l : List ℚ) :
    (scaleRow mn mx j l).length = l.length := by
  induction l generalizing j with
  | nil => rfl
  | cons x xs ih => simp [scaleRow, ih]

theorem scaleRow_getD (mn mx : ℕ → ℚ) (l : List ℚ) (j k : ℕ) (h : k < l.length) :
    (scaleRow mn mx j l).getD k 0
      = (l.getD k 0 - mn (j + k))
        / (if mx (j + k) - mn (j + k) = 0 then 1 else mx (j + k) - mn (j + k)) := by
  induction l generalizing j k with
  | nil => simp at h
  | cons x xs ih =>
      cases k with
      | zero => simp [scaleRow, List.getD]
      | succ m =>
          simp only [List.length_cons, Nat.succ_lt_succ_iff] at h
          have := ih (j + 1) m h
          simpa [scaleRow, List.getD, Nat.add_assoc, Nat.add_comm 1 m] using this

/-- Claim C3: `rescale_features` keeps the column names in input order, and
in every column that is non-constant after clipping each output value is the
min-max scaling of the clipped column — `(clipped − min) / (max − min)` with
the minimum and maximum taken over the clipped column — and lies in `[0, 1]`.
Non-constancy is stated as the clipped column containing two distinct
values. -/
theorem rescale_features_bounds (features : FTable) (min_quantile max_quantile : ℚ)
    (i j : ℕ) (hi : i < features.rows.length)
    (hj : j < (features.rows.getD i []).length)
    (hnc : ∃ a ∈ (clipStage features min_quantile max_quantile).col j,
           ∃ b ∈ (clipStage features min_quantile max_quantile).col j, a ≠ b) :
    (rescale_features features min_quantile max_quantile).cols = features.cols ∧
    ((rescale_features features min_quantile max_quantile).rows.getD i []).getD j 0
      = (clipVal (features.colQuantile min_quantile j) (features.colQuantile max_quantile j)
            ((features.rows.getD i []).getD j 0)
          - listMin ((clipStage features min_quantile max_quantile).col j))
        / (listMax ((clipStage features min_quantile max_quantile).col j)
          - listMin ((clipStage features min_quantile max_quantile).col j)) ∧
    0 ≤ ((rescale_features features min_quantile max_quantile).rows.getD i []).getD j 0 ∧
    ((rescale_features features min_quantile max_quantile).rows.getD i []).getD j 0 ≤ 1 := by
  set C := clipStage features min_quantile max_quantile with hC
  set mn := listMin (C.col j) with hmn
  set mx := listMax (C.col j) with hmx
  -- the clipped frame's row i
  have hClen : C.rows.length = features.rows.length := by
    simp [hC, clipStage]
  have hCrow : C.rows.getD i []
      = clipRow (features.colQuantile min_quantile) (features.colQuantile max_quantile) 0
          (features.rows.getD i []) := by
    simpa [hC, clipStage] using
      getD_map_of_lt
        (clipRow (features.colQuantile min_quantile) (features.colQuantile max_quantile) 0)
        features.rows i [] [] hi
  have hCrowlen : (C.rows.getD i []).length = (features.rows.getD i []).length := by
    rw [hCrow, clipRow_length]
  have hcij : (C.rows.getD i []).getD j 0
      = clipVal (features.colQuantile min_quantile j) (features.colQuantile max_quantile j)
          ((features.rows.getD i []).getD j 0) := by
    rw [hCrow]
    simpa using clipRow_getD _ _ (features.rows.getD i []) 0 j hj
  -- the clipped value is an element of the clipped column
  have hilt : i < C.rows.length := by rw [hClen]; exact hi
  have hcol : (C.col j).getD i 0 = (C.rows.getD i []).getD j 0 := by
    simpa [FTable.col] using getD_map_of_lt (fun r => r.getD j 0) C.rows i 0 [] hilt
  have hmem : (C.rows.getD i []).getD j 0 ∈ C.col j := by
    rw [← hcol]
    exact getD_mem_of_lt _ i 0 (by simpa [FTable.col] using hilt)
  -- bounds of the clipped column
  have hmnle : mn ≤ (C.rows.getD i []).getD j 0 := listMin_le _ _ hmem
  have hlemx : (C.rows.getD i []).getD j 0 ≤ mx := le_listMax _ _ hmem
  -- non-constancy gives mn < mx
  have hmnmx : mn < mx := by
    obtain ⟨a, ha, b, hb, hab⟩ := hnc
    rcases lt_or_le mn mx with h | h
    · exact h
    · exfalso
      have h1 : a ≤ mx := le_listMax _ _ ha
      have h2 : mn ≤ a := listMin_le _ _ ha
      have h3 : b ≤ mx := le_listMax _ _ hb
      have h4 : mn ≤ b := listMin_le _ _ hb
      have : a = b := le_antisymm (le_trans h1 (le_trans h h4)) (le_trans h3 (le_trans h h2))
      exact hab this
  have hne : mx - mn ≠ 0 := by
    intro h
    exact absurd (sub_eq_zero.mp h).symm (ne_of_lt hmnmx)
  -- the output value
  have hout : ((rescale_features features min_quantile max_quantile).rows.getD i []).getD j 0
      = ((C.rows.getD i []).getD j 0 - mn) / (mx - mn) := by
    have hrow : (rescale_features features min_quantile max_quantile).rows.getD i []
        = scaleRow (fun j => listMin (C.col j)) (fun j => listMax (C.col j)) 0
            (C.rows.getD i []) := by
      simpa [rescale_features, hC] using
        getD_map_of_lt (scaleRow (fun j => listMin (C.col j)) (fun j => listMax (C.col j)) 0)
          C.rows i [] [] hilt
    rw [hrow]
    have hjlt : j < (C.rows.getD i []).length := by rw [hCrowlen]; exact hj
    have := scaleRow_getD (fun j => listMin (C.col j)) (fun j => listMax (C.col j))
      (C.rows.getD i []) 0 j hjlt
    simpa [hmn, hmx, hne] using this
  refine ⟨rfl, ?_, ?_, ?_⟩
  · rw [hout, hcij]
  · rw [hout]
    exact div_nonneg (by linarith) (by linarith)
  · rw [hout]
    rw [div_le_one (by linarith)]
    linarith

/-- Witness for C3 at a concrete one-column frame with rows `0` and `1` and
the default quantiles: the clipped column is `[1/100, 99/100]`, which is
non-constant, and the scaled entry at row 1 equals the min-max formula and
lies in `[0, 1]`. -/
theorem rescale_features_bounds_witness :
    (rescale_features ftEx (1/100) (99/100)).cols = ftEx.cols ∧
    ((rescale_features ftEx (1/100) (99/100)).rows.getD 1 []).getD 0 0
      = (clipVal (ftEx.colQuantile (1/100) 0) (ftEx.colQuantile (99/100) 0)
            ((ftEx.rows.getD 1 []).getD 0 0)
          - listMin ((clipStage ftEx (1/100) (99/100)).col 0))
        / (listMax ((clipStage ftEx (1/100) (99/100)).col 0)
          - listMin ((clipStage ftEx (1/100) (99/100)).col 0)) ∧
    0 ≤ ((rescale_features ftEx (1/100) (99/100)).rows.getD 1 []).getD 0 0 ∧
    ((rescale_features ftEx (1/100) (99/100)).rows.getD 1 []).getD 0 0 ≤ 1 := by
  refine rescale_features_bounds ftEx (1/100) (99/100) 1 0 (by norm_num [ftEx])
    (by norm_num [ftEx]) ?_
  refine ⟨1/100, ?_, 99/100, ?_, by norm_num⟩
  · simp [clipStage, ftEx, FTable.col, clipRow, clipVal, FTable.colQuantile, quantile,
      quantileOfSorted, List.insertionSort, List.orderedInsert]
    norm_num [List.insertionSort, List.orderedInsert]
  · simp [clipStage, ftEx, FTable.col, clipRow, clipVal, FTable.colQuantile, quantile,
      quantileOfSorted, List.insertionSort, List.orderedInsert]
    norm_num [List.insertionSort, List.orderedInsert]

/-! ## Downsampling lemmas (Claims C1 and C4) -/

theorem downsampleKeys_nodup (data : Table) (annot : String) :
    (data.downsampleKeys annot).Nodup :=
  (List.perm_insertionSort _ _).nodup_iff.mpr (List.nodup_dedup _)

theorem mem_downsampleKeys (data : Table) (annot : String) (g : Value) :
    g ∈ data.downsampleKeys annot ↔ g ∈ data.nonNullAnnVals annot :=
  (List.perm_insertionSort _ _).mem_iff.trans List.mem_dedup

theorem groupRows_key (data : Table) (annot : String) (g : Value) (r : List Value)
    (hr : r ∈ data.groupRows annot g) : data.keyAt annot r = g := by
  have := List.mem_filter.mp hr
  simpa using this.2

/-- Filtering a per-key-flattened list for one key recovers exactly that
key's chunk (keys distinct, every chunk element carrying its own key). -/
theorem flatten_filter_groups (key : List Value → Value) (keys : List Value)
    (chunk : Value → List (List Value)) (g : Value) (hnd : keys.Nodup)
    (hch : ∀ g' ∈ keys, ∀ r ∈ chunk g', key r = g') :
    (keys.map chunk).flatten.filter (fun r => key r = g)
      = if g ∈ keys then chunk g else [] := by
  induction keys with
  | nil => simp
  | cons k ks ih =>
      simp only [List.map_cons, List.flatten_cons, List.filter_append]
      obtain ⟨hk1, hk2⟩ := List.nodup_cons.mp hnd
      have ih' := ih hk2 (fun g' hg' => hch g' (List.mem_cons_of_mem _ hg'))
      by_cases hgk : g = k
      · subst hgk
        have h1 : (chunk g).filter (fun r => key r = g) = chunk g :=
          List.filter_eq_self.mpr
            (fun r hr => by simp [hch g (List.mem_cons_self _ _) r hr])
        have h2 : (ks.map chunk).flatten.filter (fun r => key r = g) = [] := by
          rw [ih']
          simp [hk1]
        rw [h1, h2]
        simp
      · have h1 : (chunk k).filter (fun r => key r = g) = [] :=
          List.filter_eq_nil_iff.mpr (fun r hr => by
            simp only [decide_eq_true_eq, hch k (List.mem_cons_self _ _) r hr]
            exact fun h => hgk h.symm)
        rw [h1, ih']
        simp [List.mem_cons, hgk]

theorem groupRows_length_countP (data : Table) (annot : String) (g : Value)
    (hg : g ≠ .vNone) :
    (data.groupRows annot g).length
      = (data.nonNullAnnVals annot).countP (fun v => v = g) := by
  rw [Table.nonNullAnnVals, List.countP_filter, List.countP_map,
    Table.groupRows, ← List.countP_eq_length_filter]
  apply List.countP_congr
  intro r _
  by_cases h : data.keyAt annot r = g
  · simp [h, Function.comp, hg]
  · simp [h, Function.comp]

theorem sum_groupRows_length (data : Table) (annot : String) :
    ((data.downsampleKeys annot).map (fun g => (data.groupRows annot g).length)).sum
      = (data.nonNullAnnVals annot).length := by
  have hperm := List.perm_insertionSort (fun a b => Value.leb a b = true)
    (data.nonNullAnnVals annot).dedup
  have h1 : ((data.downsampleKeys annot).map
        (fun g => (data.groupRows annot g).length)).sum
      = (((data.nonNullAnnVals annot).dedup).map
        (fun g => (data.groupRows annot g).length)).sum :=
    (hperm.map _).sum_eq
  rw [h1]
  have h2 : (((data.nonNullAnnVals annot).dedup).map
        (fun g => (data.groupRows annot g).length))
      = (((data.nonNullAnnVals annot).dedup).map
        (fun g => List.count g (data.nonNullAnnVals annot))) := by
    apply List.map_congr_left
    intro g hg
    have hgnn : g ≠ .vNone := by
      have := List.mem_filter.mp (List.mem_dedup.mp hg)
      simpa using this.2
    rw [groupRows_length_countP data annot g hgnn, List.count_eq_countP]
    apply List.countP_congr
    intro v _
    simp
  rw [h2]
  exact List.sum_map_count_dedup_eq_length _

/-- Superadditivity of natural division over a list sum. -/
theorem sum_map_div_le (l : List ℕ) (T : ℕ) :
    (l.map (fun c => c / T)).sum ≤ l.sum / T := by
  induction l with
  | nil => simp
  | cons a as ih =>
      simp only [List.map_cons, List.sum_cons]
      rcases Nat.eq_zero_or_pos T with hT | hT
      · subst hT
        simp
      · have h2 : a / T + as.sum / T ≤ (a + as.sum) / T := by
          rw [Nat.le_div_iff_mul_le hT, Nat.add_mul]
          exact Nat.add_le_add (Nat.div_mul_le_self a T) (Nat.div_mul_le_self as.sum T)
        exact le_trans (Nat.add_le_add_left ih _) h2

/-- The proportional share of one group in the stratified path:
`(freqs * n_samples).astype(int)` in exact arithmetic (`value_counts`
normalises by the non-`NaN` count, truncation of a nonnegative rational is
natural division). -/
def Table.groupShare (data : Table) (annot : String) (n : ℕ) (g : Value) : ℕ :=
  (data.groupRows annot g).length * n / (data.nonNullAnnVals annot).length

/-- The stratified `rand=False` branch of `downsample_cells`, closed form. -/
theorem downsample_strat_head_eq
    (sampleFn : List (List Value) → ℕ → List (List Value)) (data : Table)
    (annot : String) (n : ℕ) (hann : annot ∈ data.cols)
    (hk : data.downsampleKeys annot ≠ []) :
    downsample_cells sampleFn data annot (some n) true false
      = .ok { data with rows := ((data.downsampleKeys annot).map (fun g =>
          (data.groupRows annot g).take
            (min (data.groupShare annot n g) (data.groupRows annot g).length))).flatten } := by
  have hke : (data.downsampleKeys annot).isEmpty = false := by
    simp [List.isEmpty_iff, hk]
  simp [downsample_cells, hann, hke, Table.groupShare]

/-- The stratified `rand=True` branch of `downsample_cells`, closed form. -/
theorem downsample_strat_rand_eq
    (sampleFn : List (List Value) → ℕ → List (List Value)) (data : Table)
    (annot : String) (n : ℕ) (hann : annot ∈ data.cols)
    (hk : data.downsampleKeys annot ≠ []) :
    downsample_cells sampleFn data annot (some n) true true
      = .ok { data with rows := ((data.downsampleKeys annot).map (fun g =>
          sampleFn (data.groupRows annot g)
            (min (data.groupShare annot n g) (data.groupRows annot g).length))).flatten } := by
  have hke : (data.downsampleKeys annot).isEmpty = false := by
    simp [List.isEmpty_iff, hk]
  simp [downsample_cells, hann, hke, Table.groupShare]

/-- The non-stratified branch of `downsample_cells`, in closed form. -/
theorem downsample_nonstrat_eq
    (sampleFn : List (List Value) → ℕ → List (List Value)) (data : Table)
    (annot : String) (n : ℕ) (rand : Bool) (hann : annot ∈ data.cols) :
    downsample_cells sampleFn data annot (some n) false rand
      = .ok { data with rows := ((data.downsampleKeys annot).map (fun g =>
          (data.groupRows annot g).take
            (min n (data.groupRows annot g).length))).flatten } := by
  simp [downsample_cells, hann]

/-- The flattened per-key chunks are no longer than the summed bound. -/
theorem flatten_length_le (keys : List Value) (chunk : Value → List (List Value))
    (share : Value → ℕ) (hle : ∀ g ∈ keys, (chunk g).length ≤ share g) :
    ((keys.map chunk).flatten).length ≤ (keys.map share).sum := by
  rw [List.length_flatten, List.map_map]
  apply List.sum_le_sum
  intro g hg
  simpa [Function.comp] using hle g hg

/-- The group shares sum to at most `n_samples` (rounding only loses). -/
theorem share_sum_le (data : Table) (annot : String) (n : ℕ) :
    ((data.downsampleKeys annot).map (data.groupShare annot n)).sum ≤ n := by
  have h1 := sum_map_div_le
    ((data.downsampleKeys annot).map (fun g => (data.groupRows annot g).length * n))
    (data.nonNullAnnVals annot).length
  rw [List.map_map] at h1
  have h2 : ((data.downsampleKeys annot).map
        (fun g => (data.groupRows annot g).length * n)).sum
      = (data.nonNullAnnVals annot).length * n := by
    rw [List.sum_map_mul_right, sum_groupRows_length]
  rw [h2] at h1
  have h3 : (data.nonNullAnnVals annot).length * n / (data.nonNullAnnVals annot).length ≤ n := by
    rcases Nat.eq_zero_or_pos (data.nonNullAnnVals annot).length with h0 | h0
    · simp [h0]
    · rw [Nat.mul_div_cancel_left n h0]
  have h4 : (data.downsampleKeys annot).map (data.groupShare annot n)
      = (data.downsampleKeys annot).map
          ((fun c => c / (data.nonNullAnnVals annot).length)
            ∘ fun g => (data.groupRows annot g).length * n) := by
    apply List.map_congr_left
    intro g _
    simp [Function.comp, Table.groupShare]
  rw [h4]
  exact le_trans h1 h3

/-! ## Claim C1 (corrected) -/

/-- Claim C1 (amended): with a non-`None` `n_samples`, the *stratified* path
returns at most `n_samples` rows in total, and both paths include from each
annotation group no more rows than the group had in the input; on the
*non-stratified* path the per-group count (not the total) is bounded by
`min n_samples group_size`, so the total may exceed `n_samples`. -/
theorem downsample_cells_bounds (sampleFn : List (List Value) → ℕ → List (List Value))
    (data : Table) (annot : String) (n : ℕ) (rand : Bool) (g : Value)
    (hs : sampleOracle sampleFn) :
    (resRows (downsample_cells sampleFn data annot (some n) true rand)).length ≤ n ∧
    ((resRows (downsample_cells sampleFn data annot (some n) true rand)).filter
        (fun r => data.keyAt annot r = g)).length ≤ (data.groupRows annot g).length ∧
    ((resRows (downsample_cells sampleFn data annot (some n) false rand)).filter
        (fun r => data.keyAt annot r = g)).length
      ≤ min n (data.groupRows annot g).length := by
  by_cases hann : annot ∈ data.cols
  · refine ⟨?_, ?_, ?_⟩
    · -- total bound for the stratified path
      by_cases hk : data.downsampleKeys annot = []
      · cases rand <;> simp [downsample_cells, hann, hk, resRows]
      · cases rand with
        | false =>
            rw [downsample_strat_head_eq sampleFn data annot n hann hk]
            simp only [resRows]
            refine le_trans (flatten_length_le _ _ (data.groupShare annot n) ?_)
              (share_sum_le data annot n)
            intro g' _
            simp only [List.length_take]
            exact le_trans (min_le_left _ _) (min_le_left _ _)
        | true =>
            rw [downsample_strat_rand_eq sampleFn data annot n hann hk]
            simp only [resRows]
            refine le_trans (flatten_length_le _ _ (data.groupShare annot n) ?_)
              (share_sum_le data annot n)
            intro g' _
            rw [(hs _ _ (min_le_right _ _)).1]
            exact min_le_left _ _
    · -- per-group bound for the stratified path
      by_cases hk : data.downsampleKeys annot = []
      · cases rand <;> simp [downsample_cells, hann, hk, resRows]
      · cases rand with
        | false =>
            rw [downsample_strat_head_eq sampleFn data annot n hann hk]
            simp only [resRows]
            rw [flatten_filter_groups (data.keyAt annot) (data.downsampleKeys annot) _ g
              (downsampleKeys_nodup data annot)
              (fun g' _ r hr => groupRows_key data annot g' r (List.take_subset _ _ hr))]
            by_cases hgk : g ∈ data.downsampleKeys annot
            · rw [if_pos hgk]
              simp only [List.length_take]
              exact le_trans (min_le_right _ _) le_rfl
            · rw [if_neg hgk]
              simp
        | true =>
            rw [downsample_strat_rand_eq sampleFn data annot n hann hk]
            simp only [resRows]
            rw [flatten_filter_groups (data.keyAt annot) (data.downsampleKeys annot) _ g
              (downsampleKeys_nodup data annot)
              (fun g' _ r hr => groupRows_key data annot g' r
                ((hs _ _ (min_le_right _ _)).2 r hr))]
            by_cases hgk : g ∈ data.downsampleKeys annot
            · rw [if_pos hgk, (hs _ _ (min_le_right _ _)).1]
              exact min_le_right _ _
            · rw [if_neg hgk]
              simp
    · -- per-group bound for the non-stratified path
      rw [downsample_nonstrat_eq sampleFn data annot n rand hann]
      simp only [resRows]
      rw [flatten_filter_groups (data.keyAt annot) (data.downsampleKeys annot) _ g
        (downsampleKeys_nodup data annot)
        (fun g' _ r hr => groupRows_key data annot g' r (List.take_subset _ _ hr))]
      by_cases hgk : g ∈ data.downsampleKeys annot
      · rw [if_pos hgk]
        simp only [List.length_take]
        rw [min_comm (min n (data.groupRows annot g).length)]
        exact min_le_right _ _
      · rw [if_neg hgk]
        simp
  · refine ⟨?_, ?_, ?_⟩ <;> simp [downsample_cells, hann, resRows]

/-- `DataFrame.sample` modelled by taking the first rows satisfies the
sample contract. -/
theorem take_sampleOracle : sampleOracle (fun l k => l.take k) := by
  intro l k hk
  constructor
  · simp [List.length_take, Nat.min_eq_left hk]
  · intro x hx
    exact List.take_subset _ _ hx

/-- Witness for C1 (amended) at the docstring's example frame with
`n_samples = 2`, `rand = false`, group `a`. -/
theorem downsample_cells_bounds_witness :
    (resRows (downsample_cells (fun l k => l.take k) tblEx "annotation" (some 2)
        true false)).length ≤ 2 ∧
    ((resRows (downsample_cells (fun l k => l.take k) tblEx "annotation" (some 2)
        true false)).filter
        (fun r => tblEx.keyAt "annotation" r = .vStr "a")).length
      ≤ (tblEx.groupRows "annotation" (.vStr "a")).length ∧
    ((resRows (downsample_cells (fun l k => l.take k) tblEx "annotation" (some 2)
        false false)).filter
        (fun r => tblEx.keyAt "annotation" r = .vStr "a")).length
      ≤ min 2 (tblEx.groupRows "annotation" (.vStr "a")).length :=
  downsample_cells_bounds (fun l k => l.take k) tblEx "annotation" 2 false
    (.vStr "a") take_sampleOracle

/-! ## Claim C4 -/

/-- Claim C4: with `stratify=True`, `downsample_cells` takes from each
annotation group exactly `min(⌊group_count * n / total⌋, group_count)` rows
(`⌊group_frequency × n_samples⌋` in exact arithmetic, `total` counting the
non-`NaN` annotation entries): with `rand=False` exactly the first such rows
of the group, with `rand=True` exactly that many rows chosen by the sample
selector.  Rounding loss and the no-oversampling `min` are visible in the
formula. -/
theorem downsample_cells_stratified_exact
    (sampleFn : List (List Value) → ℕ → List (List Value)) (data : Table)
    (annot : String) (n : ℕ) (g : Value) (hs : sampleOracle sampleFn)
    (hann : annot ∈ data.cols) (hg : g ∈ data.downsampleKeys annot) :
    (resRows (downsample_cells sampleFn data annot (some n) true false)).filter
        (fun r => data.keyAt annot r = g)
      = (data.groupRows annot g).take
          (min (data.groupShare annot n g) (data.groupRows annot g).length) ∧
    ((resRows (downsample_cells sampleFn data annot (some n) true true)).filter
        (fun r => data.keyAt annot r = g)).length
      = min (data.groupShare annot n g) (data.groupRows annot g).length := by
  have hk : data.downsampleKeys annot ≠ [] := List.ne_nil_of_mem hg
  constructor
  · rw [downsample_strat_head_eq sampleFn data annot n hann hk]
    simp only [resRows]
    rw [flatten_filter_groups (data.keyAt annot) (data.downsampleKeys annot) _ g
      (downsampleKeys_nodup data annot)
      (fun g' _ r hr => groupRows_key data annot g' r (List.take_subset _ _ hr))]
    rw [if_pos hg]
  · rw [downsample_strat_rand_eq sampleFn data annot n hann hk]
    simp only [resRows]
    rw [flatten_filter_groups (data.keyAt annot) (data.downsampleKeys annot) _ g
      (downsampleKeys_nodup data annot)
      (fun g' _ r hr => groupRows_key data annot g' r
        ((hs _ _ (min_le_right _ _)).2 r hr))]
    rw [if_pos hg]
    exact (hs _ _ (min_le_right _ _)).1

/-- Witness for C4 at the docstring's example frame with `n_samples = 4` and
group `a` (share `⌊3·4/6⌋ = 2` of the 3 rows). -/
theorem downsample_cells_stratified_exact_witness :
    (resRows (downsample_cells (fun l k => l.take k) tblEx "annotation" (some 4)
        true false)).filter
        (fun r => tblEx.keyAt "annotation" r = .vStr "a")
      = (tblEx.groupRows "annotation" (.vStr "a")).take
          (min (tblEx.groupShare "annotation" 4 (.vStr "a"))
               (tblEx.groupRows "annotation" (.vStr "a")).length) ∧
    ((resRows (downsample_cells (fun l k => l.take k) tblEx "annotation" (some 4)
        true true)).filter
        (fun r => tblEx.keyAt "annotation" r = .vStr "a")).length
      = min (tblEx.groupShare "annotation" 4 (.vStr "a"))
            (tblEx.groupRows "annotation" (.vStr "a")).length :=
  downsample_cells_stratified_exact (fun l k => l.take k) tblEx "annotation" 4
    (.vStr "a") take_sampleOracle (by decide) (by decide)

/-! ## Claim C5 (corrected) -/

theorem splitChar_of_not_contains (c : Char) (l : List Char)
    (h : l.contains c = false) : splitChar c l = [l] := by
  induction l with
  | nil => rfl
  | cons x xs ih =>
      simp only [List.contains_cons, Bool.or_eq_false_iff] at h
      have hx : ¬ x = c := by
        intro he
        subst he
        simp at h
      rw [splitChar, ih h.2]
      simp [hx]

theorem pySplit_two_contains (s : String) (h : (pySplit s ':').length = 2) :
    s.toList.contains ':' = true := by
  by_contra hc
  rw [Bool.not_eq_true] at hc
  rw [pySplit, splitChar_of_not_contains ':' s.toList hc] at h
  simp at h

theorem mapM_ok {α β : Type} (f : α → Except Err β) (g : α → β) (l : List α)
    (h : ∀ a ∈ l, f a = .ok (g a)) : l.mapM f = .ok (l.map g) := by
  induction l with
  | nil => rfl
  | cons x xs ih =>
      rw [List.mapM_cons, h x (List.mem_cons_self _ _),
        ih (fun a ha => h a (List.mem_cons_of_mem _ ha))]
      rfl

/-- Under two-part rules the rule loop never raises, and acts row-wise. -/
theorem foldlM_applyRule_ok (jsrc jnew : ℕ) (rules : List String)
    (h2 : ∀ rule ∈ rules, (pySplit rule ':').length = 2) (t : Table) :
    rules.foldlM (applyRule jsrc jnew) t
      = .ok { t with rows := t.rows.map (applyRulesRow jsrc jnew rules) } := by
  induction rules generalizing t with
  | nil =>
      have h : applyRulesRow jsrc jnew [] = fun r => r := by
        funext r
        simp [applyRulesRow]
      rw [List.foldlM_nil, h, List.map_id']
      rfl
  | cons rule rest ih =>
      obtain ⟨sv, tv, hsp⟩ := List.length_eq_two.mp (h2 rule (List.mem_cons_self _ _))
      have hfn : (fun r => ruleRowStep jsrc jnew r rule)
          = (fun r : List Value =>
              if r.getD jsrc .vNone = .vStr sv then r.set jnew (.vStr tv) else r) := by
        funext r
        simp [ruleRowStep, hsp]
      rw [List.foldlM_cons]
      have happ : applyRule jsrc jnew t rule
          = .ok { t with rows := t.rows.map (fun r => ruleRowStep jsrc jnew r rule) } := by
        simp [applyRule, hsp, hfn]
      rw [happ]
      have ih' := ih (fun r hr => h2 r (List.mem_cons_of_mem _ hr))
        { t with rows := t.rows.map (fun r => ruleRowStep jsrc jnew r rule) }
      show List.foldlM (applyRule jsrc jnew)
        { t with rows := t.rows.map (fun r => ruleRowStep jsrc jnew r rule) } rest = _
      rw [ih']
      simp only [Except.ok.injEq, Table.mk.injEq, true_and, List.map_map]
      apply List.map_congr_left
      intro r _
      simp [applyRulesRow, Function.comp]

theorem getD_set_ne {α : Type} (l : List α) (i j : ℕ) (v d : α) (h : i ≠ j) :
    (l.set i v).getD j d = l.getD j d := by
  rw [List.getD_eq_getElem?_getD, List.getD_eq_getElem?_getD, List.getElem?_set_ne h]

theorem getD_set_self {α : Type} (l : List α) (i : ℕ) (v d : α) (h : i < l.length) :
    (l.set i v).getD i d = v := by
  rw [List.getD_eq_getElem?_getD, List.getElem?_set_self h]
  rfl

/-- Row-wise behaviour of the rule loop: the source position is untouched,
and the new-column position ends as the target of some matching rule or
keeps its initial value when no rule's source part matches. -/
theorem applyRulesRow_spec (jsrc jnew : ℕ) (hne : jsrc ≠ jnew) (rules : List String)
    (r : List Value) (hjn : jnew < r.length) :
    (applyRulesRow jsrc jnew rules r).length = r.length ∧
    (applyRulesRow jsrc jnew rules r).getD jsrc .vNone = r.getD jsrc .vNone ∧
    ((∃ rule ∈ rules, ∃ sv tv, pySplit rule ':' = [sv, tv] ∧
        r.getD jsrc .vNone = .vStr sv ∧
        (applyRulesRow jsrc jnew rules r).getD jnew .vNone = .vStr tv) ∨
     ((∀ rule ∈ rules, ∀ sv tv, pySplit rule ':' = [sv, tv] →
        r.getD jsrc .vNone ≠ .vStr sv) ∧
      (applyRulesRow jsrc jnew rules r).getD jnew .vNone = r.getD jnew .vNone)) := by
  induction rules generalizing r with
  | nil =>
      refine ⟨rfl, rfl, .inr ⟨?_, rfl⟩⟩
      simp
  | cons rule rest ih =>
      have hcons : applyRulesRow jsrc jnew (rule :: rest) r
          = applyRulesRow jsrc jnew rest (ruleRowStep jsrc jnew r rule) := by
        simp [applyRulesRow, List.foldl_cons]
      by_cases h2 : ∃ sv tv, pySplit rule ':' = [sv, tv]
      · obtain ⟨sv, tv, hsp⟩ := h2
        by_cases hm : r.getD jsrc .vNone = .vStr sv
        · have hstep : ruleRowStep jsrc jnew r rule = r.set jnew (.vStr tv) := by
            unfold ruleRowStep
            rw [hsp]
            show (if r.getD jsrc .vNone = .vStr sv
              then r.set jnew (.vStr tv) else r) = _
            rw [if_pos hm]
          rw [hcons, hstep]
          have hlen' : (r.set jnew (.vStr tv)).length = r.length := List.length_set _ _ _
          obtain ⟨ihlen, ihsrc, ihcase⟩ :=
            ih (r.set jnew (.vStr tv)) (by rw [hlen']; exact hjn)
          have hsrc' : (r.set jnew (.vStr tv)).getD jsrc .vNone = r.getD jsrc .vNone :=
            getD_set_ne r jnew jsrc (.vStr tv) .vNone (fun he => hne he.symm)
          refine ⟨by rw [ihlen, hlen'], by rw [ihsrc, hsrc'], ?_⟩
          rcases ihcase with ⟨rule', hrule', sv', tv', hsp', hm', hval'⟩ | ⟨hnone, hval'⟩
          · exact .inl ⟨rule', List.mem_cons_of_mem _ hrule', sv', tv', hsp',
              by rw [hsrc'] at hm'; exact hm', hval'⟩
          · refine .inl ⟨rule, List.mem_cons_self _ _, sv, tv, hsp, hm, ?_⟩
            rw [hval']
            exact getD_set_self r jnew (.vStr tv) .vNone hjn
        · have hstep : ruleRowStep jsrc jnew r rule = r := by
            unfold ruleRowStep
            rw [hsp]
            show (if r.getD jsrc .vNone = .vStr sv
              then r.set jnew (.vStr tv) else r) = _
            rw [if_neg hm]
          rw [hcons, hstep]
          obtain ⟨ihlen, ihsrc, ihcase⟩ := ih r hjn
          refine ⟨ihlen, ihsrc, ?_⟩
          rcases ihcase with ⟨rule', hrule', sv', tv', hsp', hm', hval'⟩ | ⟨hnone, hval'⟩
          · exact .inl ⟨rule', List.mem_cons_of_mem _ hrule', sv', tv', hsp', hm', hval'⟩
          · refine .inr ⟨?_, hval'⟩
            intro rule' hrule' sv' tv' hsp'
            rcases List.mem_cons.mp hrule' with he | hmem
            · subst he
              rw [hsp] at hsp'
              injection hsp' with h1 h2'
              injection h2' with h2 _
              subst h1
              exact hm
            · exact hnone rule' hmem sv' tv' hsp'
      · have hstep : ruleRowStep jsrc jnew r rule = r := by
          unfold ruleRowStep
          rcases hsp : pySplit rule ':' with - | ⟨a, - | ⟨b, - | ⟨c, l⟩⟩⟩
          · rfl
          · rfl
          · exact absurd ⟨a, b, hsp⟩ h2
          · rfl
        rw [hcons, hstep]
        obtain ⟨ihlen, ihsrc, ihcase⟩ := ih r hjn
        refine ⟨ihlen, ihsrc, ?_⟩
        rcases ihcase with ⟨rule', hrule', sv', tv', hsp', hm', hval'⟩ | ⟨hnone, hval'⟩
        · exact .inl ⟨rule', List.mem_cons_of_mem _ hrule', sv', tv', hsp', hm', hval'⟩
        · refine .inr ⟨?_, hval'⟩
          intro rule' hrule' sv' tv' hsp'
          rcases List.mem_cons.mp hrule' with he | hmem
          · subst he
            exact absurd ⟨sv', tv', hsp'⟩ h2
          · exact hnone rule' hmem sv' tv' hsp'

/-- Counterexample to C5 as stated: the rule `"a:b:c"` contains the `':'`
separator (so the claim calls the rule list valid), yet `append_observation`
raises the `ValueError` of tuple unpacking (`rule.split(':')` yields three
parts) instead of returning a table. -/
theorem append_observation_raises_on_double_colon :
    ("a:b:c".toList.contains ':') = true ∧
    (append_observation [tblSrcEx] 0 "s" "nc" ["a:b:c"]).2 = .error .unpackError := by
  constructor
  · decide
  · rfl

theorem getD_append_left {α : Type} (l l' : List α) (n : ℕ) (d : α) (h : n < l.length) :
    (l ++ l').getD n d = l.getD n d := by
  rw [List.getD_eq_getElem?_getD, List.getD_eq_getElem?_getD, List.getElem?_append_left h]

theorem getD_concat_length {α : Type} (l : List α) (a d : α) :
    (l ++ [a]).getD l.length d = a := by
  rw [List.getD_eq_getElem?_getD, List.getElem?_concat_length]
  rfl

/-- Claim C5 (amended): for rules that split at `':'` into exactly two parts,
`append_observation` leaves the table at the input reference untouched and
returns a fresh reference to a new table in which the new column holds, per
row, either some rule's target part (that rule's source part equalling the
row's stringified source value) or the sentinel `"Not_Mapped"`, and the
source column's dtype equals its input dtype.  (`hparse` records that
converting the stringified source column back to its original dtype
succeeds, which holds for the int64/object dtypes pandas round-trips.) -/
theorem append_observation_new_column_mapped (st : Store) (ref : ℕ)
    (source_column new_column : String) (mapping_rules : List String)
    (data : Table) (i : ℕ)
    (hget : st.get? ref = some data)
    (hsrc : source_column ∈ data.cols)
    (hnew : new_column ∉ data.cols)
    (hdt : data.dtypes.length = data.cols.length)
    (hwf : ∀ r ∈ data.rows, r.length = data.cols.length)
    (hrules : ∀ rule ∈ mapping_rules, (pySplit rule ':').length = 2)
    (hparse : ∀ r ∈ data.rows,
      (astypeVal (data.dtypes.getD (data.colIdx source_column) .dObject)
        (.vStr ((r.getD (data.colIdx source_column) .vNone).toStr))).isOk = true)
    (hi : i < data.rows.length) :
    (append_observation st ref source_column new_column mapping_rules).2 = .ok st.length ∧
    (append_observation st ref source_column new_column mapping_rules).1.get? ref
      = some data ∧
    ∃ out,
      (append_observation st ref source_column new_column mapping_rules).1.get? st.length
        = some out ∧
      out.cols = data.cols ++ [new_column] ∧
      out.dtypes.getD (data.colIdx source_column) .dObject
        = data.dtypes.getD (data.colIdx source_column) .dObject ∧
      out.rows.length = data.rows.length ∧
      ((∃ rule ∈ mapping_rules, ∃ sv tv, pySplit rule ':' = [sv, tv] ∧
          ((data.rows.getD i []).getD (data.colIdx source_column) .vNone).toStr = sv ∧
          (out.rows.getD i []).getD data.cols.length .vNone = .vStr tv) ∨
       ((∀ rule ∈ mapping_rules, ∀ sv tv, pySplit rule ':' = [sv, tv] →
          ((data.rows.getD i []).getD (data.colIdx source_column) .vNone).toStr ≠ sv) ∧
        (out.rows.getD i []).getD data.cols.length .vNone = .vStr "Not_Mapped")) := by
  have hjsrc : data.colIdx source_column < data.cols.length := by
    rw [Table.colIdx]
    exact List.indexOf_lt_length.mpr hsrc
  have hne : data.colIdx source_column ≠ data.cols.length :=
    Nat.ne_of_lt hjsrc
  have hany : (mapping_rules.any fun rule => ¬ rule.toList.contains ':') = false := by
    rw [List.any_eq_false]
    intro rule hr
    simpa using pySplit_two_contains rule (hrules rule hr)
  have hfold := foldlM_applyRule_ok (data.colIdx source_column) data.cols.length
    mapping_rules hrules
  -- abbreviations for the intermediate row lists
  have hjn1 : ∀ r ∈ data.rows, data.colIdx source_column < (r ++ [Value.vStr "Not_Mapped"]).length := by
    intro r hr
    rw [List.length_append, hwf r hr]
    exact Nat.lt_succ_of_lt hjsrc
  -- the final store write, established once
  have hfe : ∀ r3 ∈ (((data.rows.map (fun r => r ++ [Value.vStr "Not_Mapped"])).map
        (fun r => r.set (data.colIdx source_column)
          (Value.vStr ((r.getD (data.colIdx source_column) Value.vNone).toStr)))).map
        (applyRulesRow (data.colIdx source_column) data.cols.length mapping_rules)),
      (fun r => Except.map (fun v => r.set (data.colIdx source_column) v)
          (astypeVal (data.dtypes.getD (data.colIdx source_column) Dtype.dObject)
            (r.getD (data.colIdx source_column) Value.vNone))) r3
        = .ok (r3.set (data.colIdx source_column)
            (exceptGetD (astypeVal (data.dtypes.getD (data.colIdx source_column) Dtype.dObject)
              (r3.getD (data.colIdx source_column) Value.vNone)) Value.vNone)) := by
    intro r3 hr3
    simp only [List.mem_map] at hr3
    obtain ⟨r2, ⟨r1, ⟨r0, hr0, rfl⟩, rfl⟩, rfl⟩ := hr3
    set js := data.colIdx source_column with hjs
    have hl0 : r0.length = data.cols.length := hwf r0 hr0
    have hjn2 : data.cols.length
        < ((r0 ++ [Value.vStr "Not_Mapped"]).set js
            (Value.vStr (((r0 ++ [Value.vStr "Not_Mapped"]).getD js Value.vNone).toStr))).length := by
      rw [List.length_set, List.length_append, hl0]
      exact Nat.lt_succ_self _
    have hr3src := (applyRulesRow_spec js data.cols.length hne mapping_rules _ hjn2).2.1
    have hr2src : ((r0 ++ [Value.vStr "Not_Mapped"]).set js
          (Value.vStr (((r0 ++ [Value.vStr "Not_Mapped"]).getD js Value.vNone).toStr))).getD js Value.vNone
        = Value.vStr (((r0 ++ [Value.vStr "Not_Mapped"]).getD js Value.vNone).toStr) :=
      getD_set_self _ js _ _ (hjn1 r0 hr0)
    have hr1src : (r0 ++ [Value.vStr "Not_Mapped"]).getD js Value.vNone
        = r0.getD js Value.vNone :=
      getD_append_left r0 _ js _ (by rw [hl0]; exact hjsrc)
    have hsrcval : (applyRulesRow js data.cols.length mapping_rules
          ((r0 ++ [Value.vStr "Not_Mapped"]).set js
            (Value.vStr (((r0 ++ [Value.vStr "Not_Mapped"]).getD js Value.vNone).toStr)))).getD
          js Value.vNone
        = Value.vStr ((r0.getD js Value.vNone).toStr) := by
      rw [hr3src, hr2src, hr1src]
    simp only [hsrcval]
    have hok := hparse r0 hr0
    rcases hv : astypeVal (data.dtypes.getD js Dtype.dObject)
        (Value.vStr ((r0.getD js Value.vNone).toStr)) with e | v
    · rw [hv] at hok
      simp [Except.isOk, Except.toBool] at hok
    · rfl
  have hmain : append_observation st ref source_column new_column mapping_rules
      = (st ++ [⟨data.cols ++ [new_column],
          ((data.dtypes ++ [Dtype.dObject]).set (data.colIdx source_column) Dtype.dObject).set
            (data.colIdx source_column) (data.dtypes.getD (data.colIdx source_column) Dtype.dObject),
          (((data.rows.map (fun r => r ++ [Value.vStr "Not_Mapped"])).map
            (fun r => r.set (data.colIdx source_column)
              (Value.vStr ((r.getD (data.colIdx source_column) Value.vNone).toStr)))).map
            (applyRulesRow (data.colIdx source_column) data.cols.length mapping_rules)).map
            (fun r => r.set (data.colIdx source_column)
              (exceptGetD (astypeVal (data.dtypes.getD (data.colIdx source_column) Dtype.dObject)
                (r.getD (data.colIdx source_column) Value.vNone)) Value.vNone))⟩],
        .ok st.length) := by
    simp only [append_observation, hget, hsrc, hnew, hany, not_true,
      Bool.false_eq_true, if_false, hfold]
    rw [mapM_ok _ _ _ hfe]
  rw [hmain]
  obtain ⟨href, -⟩ := List.get?_eq_some.mp hget
  refine ⟨rfl, ?_, ?_⟩
  · rw [List.get?_eq_getElem?, List.getElem?_append_left href, ← List.get?_eq_getElem?, hget]
  · refine ⟨⟨data.cols ++ [new_column],
      ((data.dtypes ++ [Dtype.dObject]).set (data.colIdx source_column) Dtype.dObject).set
        (data.colIdx source_column) (data.dtypes.getD (data.colIdx source_column) Dtype.dObject),
      (((data.rows.map (fun r => r ++ [Value.vStr "Not_Mapped"])).map
        (fun r => r.set (data.colIdx source_column)
          (Value.vStr ((r.getD (data.colIdx source_column) Value.vNone).toStr)))).map
        (applyRulesRow (data.colIdx source_column) data.cols.length mapping_rules)).map
        (fun r => r.set (data.colIdx source_column)
          (exceptGetD (astypeVal (data.dtypes.getD (data.colIdx source_column) Dtype.dObject)
            (r.getD (data.colIdx source_column) Value.vNone)) Value.vNone))⟩,
      ?_, rfl, ?_, ?_, ?_⟩
    · rw [List.get?_eq_getElem?]
      exact List.getElem?_concat_length _ _
    · apply getD_set_self
      simp only [List.length_set, List.length_append, List.length_singleton, hdt]
      exact Nat.lt_succ_of_lt hjsrc
    · simp
    · -- the new column's value at row i
      have hrow0 : data.rows.getD i [] ∈ data.rows := getD_mem_of_lt _ i [] hi
      have hrl : (data.rows.getD i []).length = data.cols.length := hwf _ hrow0
      have hi1 : i < (data.rows.map (fun r => r ++ [Value.vStr "Not_Mapped"])).length := by
        simpa using hi
      have hi2 : i < ((data.rows.map (fun r => r ++ [Value.vStr "Not_Mapped"])).map
          (fun r => r.set (data.colIdx source_column)
            (Value.vStr ((r.getD (data.colIdx source_column) Value.vNone).toStr)))).length := by
        simpa using hi
      have hi3 : i < (((data.rows.map (fun r => r ++ [Value.vStr "Not_Mapped"])).map
          (fun r => r.set (data.colIdx source_column)
            (Value.vStr ((r.getD (data.colIdx source_column) Value.vNone).toStr)))).map
          (applyRulesRow (data.colIdx source_column) data.cols.length mapping_rules)).length := by
        simpa using hi
      have e4 : (data.rows.map (fun r => r ++ [Value.vStr "Not_Mapped"])).getD i []
          = data.rows.getD i [] ++ [Value.vStr "Not_Mapped"] :=
        getD_map_of_lt _ _ i [] [] hi
      have e3 : ((data.rows.map (fun r => r ++ [Value.vStr "Not_Mapped"])).map
            (fun r => r.set (data.colIdx source_column)
              (Value.vStr ((r.getD (data.colIdx source_column) Value.vNone).toStr)))).getD i []
          = ((data.rows.getD i []) ++ [Value.vStr "Not_Mapped"]).set (data.colIdx source_column)
              (Value.vStr ((((data.rows.getD i []) ++ [Value.vStr "Not_Mapped"]).getD
                (data.colIdx source_column) Value.vNone).toStr)) := by
        rw [getD_map_of_lt _ _ i [] [] hi1, e4]
      have e2 : (((data.rows.map (fun r => r ++ [Value.vStr "Not_Mapped"])).map
            (fun r => r.set (data.colIdx source_column)
              (Value.vStr ((r.getD (data.colIdx source_column) Value.vNone).toStr)))).map
            (applyRulesRow (data.colIdx source_column) data.cols.length mapping_rules)).getD i []
          = applyRulesRow (data.colIdx source_column) data.cols.length mapping_rules
              (((data.rows.getD i []) ++ [Value.vStr "Not_Mapped"]).set (data.colIdx source_column)
                (Value.vStr ((((data.rows.getD i []) ++ [Value.vStr "Not_Mapped"]).getD
                  (data.colIdx source_column) Value.vNone).toStr))) := by
        rw [getD_map_of_lt _ _ i [] [] hi2, e3]
      have e1 : ((((data.rows.map (fun r => r ++ [Value.vStr "Not_Mapped"])).map
            (fun r => r.set (data.colIdx source_column)
              (Value.vStr ((r.getD (data.colIdx source_column) Value.vNone).toStr)))).map
            (applyRulesRow (data.colIdx source_column) data.cols.length mapping_rules)).map
            (fun r => r.set (data.colIdx source_column)
              (exceptGetD (astypeVal (data.dtypes.getD (data.colIdx source_column) Dtype.dObject)
                (r.getD (data.colIdx source_column) Value.vNone)) Value.vNone))).getD i []
          = (applyRulesRow (data.colIdx source_column) data.cols.length mapping_rules
              (((data.rows.getD i []) ++ [Value.vStr "Not_Mapped"]).set (data.colIdx source_column)
                (Value.vStr ((((data.rows.getD i []) ++ [Value.vStr "Not_Mapped"]).getD
                  (data.colIdx source_column) Value.vNone).toStr)))).set (data.colIdx source_column)
              (exceptGetD (astypeVal (data.dtypes.getD (data.colIdx source_column) Dtype.dObject)
                ((applyRulesRow (data.colIdx source_column) data.cols.length mapping_rules
                  (((data.rows.getD i []) ++ [Value.vStr "Not_Mapped"]).set (data.colIdx source_column)
                    (Value.vStr ((((data.rows.getD i []) ++ [Value.vStr "Not_Mapped"]).getD
                      (data.colIdx source_column) Value.vNone).toStr)))).getD
                  (data.colIdx source_column) Value.vNone)) Value.vNone) := by
        rw [getD_map_of_lt _ _ i [] [] hi3, e2]
      rw [e1, getD_set_ne _ _ _ _ _ hne]
      -- properties of the rule loop on this row
      have hjn2 : data.cols.length
          < (((data.rows.getD i []) ++ [Value.vStr "Not_Mapped"]).set (data.colIdx source_column)
              (Value.vStr ((((data.rows.getD i []) ++ [Value.vStr "Not_Mapped"]).getD
                (data.colIdx source_column) Value.vNone).toStr))).length := by
        rw [List.length_set, List.length_append, hrl]
        exact Nat.lt_succ_self _
      obtain ⟨-, -, hcase⟩ := applyRulesRow_spec (data.colIdx source_column) data.cols.length
        hne mapping_rules _ hjn2
      have hR2src : ((((data.rows.getD i []) ++ [Value.vStr "Not_Mapped"]).set
            (data.colIdx source_column)
            (Value.vStr ((((data.rows.getD i []) ++ [Value.vStr "Not_Mapped"]).getD
              (data.colIdx source_column) Value.vNone).toStr)))).getD
            (data.colIdx source_column) Value.vNone
          = Value.vStr (((data.rows.getD i []).getD (data.colIdx source_column) Value.vNone).toStr) := by
        rw [getD_set_self _ _ _ _ (by rw [List.length_append, hrl]; exact Nat.lt_succ_of_lt hjsrc),
          getD_append_left _ _ _ _ (by rw [hrl]; exact hjsrc)]
      have hR2new : ((((data.rows.getD i []) ++ [Value.vStr "Not_Mapped"]).set
            (data.colIdx source_column)
            (Value.vStr ((((data.rows.getD i []) ++ [Value.vStr "Not_Mapped"]).getD
              (data.colIdx source_column) Value.vNone).toStr)))).getD
            data.cols.length Value.vNone = Value.vStr "Not_Mapped" := by
        rw [getD_set_ne _ _ _ _ _ hne, ← hrl, getD_concat_length]
      rcases hcase with ⟨rule, hrule, sv, tv, hsp, hmatch, hval⟩ | ⟨hnone, hval⟩
      · left
        refine ⟨rule, hrule, sv, tv, hsp, ?_, hval⟩
        rw [hR2src] at hmatch
        exact (Value.vStr.injEq _ _).mp hmatch
      · right
        refine ⟨?_, by rw [hval, hR2new]⟩
        intro rule hr sv tv hsp heq
        apply hnone rule hr sv tv hsp
        rw [hR2src, heq]

/-- Witness for C5 (amended) on a concrete two-row frame with a string
source column and the single rule `"x:Y"`. -/
theorem append_observation_new_column_mapped_witness :
    (append_observation [tblSrcEx] 0 "s" "nc" ["x:Y"]).2 = .ok 1 ∧
    (append_observation [tblSrcEx] 0 "s" "nc" ["x:Y"]).1.get? 0 = some tblSrcEx ∧
    ∃ out, (append_observation [tblSrcEx] 0 "s" "nc" ["x:Y"]).1.get? 1 = some out ∧
      out.cols = tblSrcEx.cols ++ ["nc"] ∧
      out.dtypes.getD (tblSrcEx.colIdx "s") .dObject
        = tblSrcEx.dtypes.getD (tblSrcEx.colIdx "s") .dObject ∧
      out.rows.length = tblSrcEx.rows.length ∧
      ((∃ rule ∈ ["x:Y"], ∃ sv tv, pySplit rule ':' = [sv, tv] ∧
          ((tblSrcEx.rows.getD 0 []).getD (tblSrcEx.colIdx "s") .vNone).toStr = sv ∧
          (out.rows.getD 0 []).getD tblSrcEx.cols.length .vNone = .vStr tv) ∨
       ((∀ rule ∈ ["x:Y"], ∀ sv tv, pySplit rule ':' = [sv, tv] →
          ((tblSrcEx.rows.getD 0 []).getD (tblSrcEx.colIdx "s") .vNone).toStr ≠ sv) ∧
        (out.rows.getD 0 []).getD tblSrcEx.cols.length .vNone = .vStr "Not_Mapped")) :=
  append_observation_new_column_mapped [tblSrcEx] 0 "s" "nc" ["x:Y"] tblSrcEx 0
    (by decide) (by decide) (by decide) (by decide) (by decide) (by decide)
    (by decide) (by decide)

/-! ## Claim C6 -/


theorem schemaOk_refl (cols : List String) : schemaOk cols cols = true := by
  simp [schemaOk, sameSet]

theorem schemaOk_nil_left (c : List String) (h : schemaOk [] c = true) : c = [] := by
  simp only [schemaOk, sameSet, Bool.and_eq_true, decide_eq_true_eq] at h
  exact (List.length_eq_zero).mp h.1.symm

/-- The ingestion loop succeeds on files that all parse and match the
accumulated schema, returning the pairs in input order. -/
theorem loadLoop_ok (fs : String → FileStat) (tbl : String → Table)
    (rest : List String) (meta : List String)
    (hp : ∀ x ∈ rest, fs x = .parsed (tbl x))
    (hm : ∀ x ∈ rest, schemaOk meta (tbl x).cols = true) :
    loadLoop fs meta rest = .ok (rest.map (fun x => (x, tbl x))) := by
  induction rest generalizing meta with
  | nil => rfl
  | cons x rest' ih =>
      have hx := hp x (List.mem_cons_self _ _)
      have hmx := hm x (List.mem_cons_self _ _)
      have hmeta' : (if meta.isEmpty then (tbl x).cols else meta) = meta := by
        by_cases hme : meta.isEmpty
        · rw [if_pos hme]
          have hm0 : meta = [] := List.isEmpty_iff.mp hme
          rw [hm0] at hmx
          rw [schemaOk_nil_left _ hmx, hm0]
        · rw [if_neg hme]
      simp only [loadLoop, hx, hmeta', hmx, if_true]
      rw [ih meta (fun y hy => hp y (List.mem_cons_of_mem _ hy))
        (fun y hy => hm y (List.mem_cons_of_mem _ hy))]
      rfl

/-- The ingestion loop raises the schema-mismatch error when some file's
columns disagree with the (nonempty) accumulated schema. -/
theorem loadLoop_mismatch (fs : String → FileStat) (tbl : String → Table)
    (rest : List String) (meta : List String) (f : String)
    (hp : ∀ x ∈ rest, fs x = .parsed (tbl x)) (hmne : meta ≠ [])
    (hf : f ∈ rest) (hbad : schemaOk meta (tbl f).cols = false) :
    loadLoop fs meta rest = .error .schemaMismatch := by
  induction rest with
  | nil => simp at hf
  | cons x rest' ih =>
      have hx := hp x (List.mem_cons_self _ _)
      have hme : meta.isEmpty = false := by
        simp [List.isEmpty_iff, hmne]
      simp only [loadLoop, hx, hme, Bool.false_eq_true, if_false]
      by_cases hok : schemaOk meta (tbl x).cols = true
      · rw [if_pos hok]
        have hfx : f ≠ x := by
          intro he
          rw [he, hok] at hbad
          exact Bool.true_eq_false.mp hbad
        have hf' : f ∈ rest' := by
          rcases List.mem_cons.mp hf with he | h
          · exact absurd he hfx
          · exact h
        rw [ih (fun y hy => hp y (List.mem_cons_of_mem _ hy)) hf']
        rfl
      · rw [if_neg hok]

/-- Claim C6: `load_csv_files` on existing, readable, parseable files whose
column sets all match the first file's (same count, same name set) returns
the `(path, frame)` pairs in input order; when any file's column set differs
in count or membership, the whole call raises the schema-mismatch error and
returns nothing.  `fs` is the file-system/parsing oracle, `tbl` the parsed
frame per path. -/
theorem load_csv_files_schema_enforced (fs : String → FileStat)
    (tbl : String → Table) (files : List String) (f : String)
    (hp : ∀ x ∈ files, fs x = .parsed (tbl x)) :
    ((∀ x ∈ files, schemaOk (tbl (files.headD "")).cols (tbl x).cols = true) →
      load_csv_files fs files = .ok (files.map (fun x => (x, tbl x)))) ∧
    ((tbl (files.headD "")).cols ≠ [] → f ∈ files →
      schemaOk (tbl (files.headD "")).cols (tbl f).cols = false →
      load_csv_files fs files = .error .schemaMismatch) := by
  constructor
  · intro hm
    cases files with
    | nil => rfl
    | cons x rest =>
        have hx := hp x (List.mem_cons_self _ _)
        have hhead : (x :: rest).headD "" = x := rfl
        rw [hhead] at hm
        simp only [load_csv_files, loadLoop, hx, List.isEmpty_nil, if_true,
          schemaOk_refl]
        rw [loadLoop_ok fs tbl rest (tbl x).cols
          (fun y hy => hp y (List.mem_cons_of_mem _ hy))
          (fun y hy => hm y (List.mem_cons_of_mem _ hy))]
        rfl
  · intro hne hf hbad
    cases files with
    | nil => simp at hf
    | cons x rest =>
        have hx := hp x (List.mem_cons_self _ _)
        have hhead : (x :: rest).headD "" = x := rfl
        rw [hhead] at hne hbad
        simp only [load_csv_files, loadLoop, hx, List.isEmpty_nil, if_true,
          schemaOk_refl]
        have hfx : f ≠ x := by
          intro he
          rw [he, schemaOk_refl] at hbad
          exact Bool.true_eq_false.mp hbad
        have hf' : f ∈ rest := by
          rcases List.mem_cons.mp hf with he | h
          · exact absurd he hfx
          · exact h
        rw [loadLoop_mismatch fs tbl rest (tbl x).cols f
          (fun y hy => hp y (List.mem_cons_of_mem _ hy)) hne hf' hbad]
        rfl

/-- Witness for C6: `f1`/`f2` share a column set (in different orders) and
are returned in input order; `f1`/`f3` differ in column membership and the
whole call fails with the schema mismatch. -/
theorem load_csv_files_schema_enforced_witness :
    load_csv_files fsEx ["f1", "f2"]
      = .ok [("f1", tblsEx "f1"), ("f2", tblsEx "f2")] ∧
    load_csv_files fsEx ["f1", "f3"] = .error .schemaMismatch :=
  ⟨(load_csv_files_schema_enforced fsEx tblsEx ["f1", "f2"] "f2"
      (by decide)).1 (by decide),
   (load_csv_files_schema_enforced fsEx tblsEx ["f1", "f3"] "f3"
      (by decide)).2 (by decide) (by decide) (by decide)⟩

/-! ## Claim C10 -/

/-- Claim C10: on success `bin2cat` mutates the referenced frame in place —
the store is updated at the input reference only, no new table is allocated
(store length unchanged, every other reference untouched) — appending the
new categorical column, and returns that same reference. -/
theorem bin2cat_mutates_in_place (matcher : List String → List String → List String)
    (st : Store) (ref j : ℕ) (oneHotAnnots : List String) (newAnnot : String)
    (data : Table)
    (hget : st.get? ref = some data)
    (hnew : newAnnot ∉ data.cols)
    (hone : oneHotAnnots ≠ [])
    (hmatch : matcher oneHotAnnots data.cols ≠ [])
    (hrows : ∀ r ∈ data.rows,
      (labelsWithOne ((matcher oneHotAnnots data.cols).map
        (fun c => (c, data.colIdx c))) r).length ≤ 1)
    (hj : j ≠ ref) :
    (bin2cat matcher st ref oneHotAnnots newAnnot).2 = .ok (some ref) ∧
    (bin2cat matcher st ref oneHotAnnots newAnnot).1
      = st.set ref ⟨data.cols ++ [newAnnot], data.dtypes ++ [.dObject],
          (data.rows.zip (data.rows.map (bin2catVal
            ((matcher oneHotAnnots data.cols).map (fun c => (c, data.colIdx c)))))).map
            (fun p => p.1 ++ [p.2])⟩ ∧
    (bin2cat matcher st ref oneHotAnnots newAnnot).1.length = st.length ∧
    (bin2cat matcher st ref oneHotAnnots newAnnot).1.get? j = st.get? j := by
  have hone' : oneHotAnnots.length > 0 := List.length_pos.mpr hone
  have hmatch' : (matcher oneHotAnnots data.cols).length > 0 := List.length_pos.mpr hmatch
  have hfe : ∀ r ∈ data.rows,
      getColumnsWith1 ((matcher oneHotAnnots data.cols).map
        (fun c => (c, data.colIdx c))) r
        = .ok (bin2catVal ((matcher oneHotAnnots data.cols).map
            (fun c => (c, data.colIdx c))) r) := by
    intro r hr
    have hle := hrows r hr
    rcases hsh : labelsWithOne ((matcher oneHotAnnots data.cols).map
        (fun c => (c, data.colIdx c))) r with - | ⟨n, - | ⟨m, l⟩⟩
    · simp [getColumnsWith1, bin2catVal, hsh]
    · simp [getColumnsWith1, bin2catVal, hsh]
    · rw [hsh] at hle
      simp at hle
  have hmain : bin2cat matcher st ref oneHotAnnots newAnnot
      = (st.set ref ⟨data.cols ++ [newAnnot], data.dtypes ++ [.dObject],
          (data.rows.zip (data.rows.map (bin2catVal
            ((matcher oneHotAnnots data.cols).map (fun c => (c, data.colIdx c)))))).map
            (fun p => p.1 ++ [p.2])⟩, .ok (some ref)) := by
    simp only [bin2cat, hget, hnew, hone', hmatch', if_true, if_false]
    rw [mapM_ok _ _ _ hfe]
  rw [hmain]
  refine ⟨rfl, rfl, List.length_set _ _ _, ?_⟩
  rw [List.get?_eq_getElem?, List.get?_eq_getElem?, List.getElem?_set_ne (fun h => hj h.symm)]

/-- Witness for C10 on a one-hot frame with columns `A`, `B` and a value
column `v`, all patterns matched to the non-`v` columns. -/
theorem bin2cat_mutates_in_place_witness :
    (bin2cat (fun (_ cols : List String) => cols.filter (fun c => c ≠ "v")) [tblOneHotEx] 0
        ["A", "B"] "cat").2 = .ok (some 0) ∧
    (bin2cat (fun (_ cols : List String) => cols.filter (fun c => c ≠ "v")) [tblOneHotEx] 0
        ["A", "B"] "cat").1
      = [tblOneHotEx].set 0 ⟨tblOneHotEx.cols ++ ["cat"],
          tblOneHotEx.dtypes ++ [.dObject],
          (tblOneHotEx.rows.zip (tblOneHotEx.rows.map (bin2catVal
            (((fun (_ cols : List String) => cols.filter (fun c => c ≠ "v")) ["A", "B"]
                tblOneHotEx.cols).map (fun c => (c, tblOneHotEx.colIdx c)))))).map
            (fun p => p.1 ++ [p.2])⟩ ∧
    (bin2cat (fun (_ cols : List String) => cols.filter (fun c => c ≠ "v")) [tblOneHotEx] 0
        ["A", "B"] "cat").1.length = ([tblOneHotEx] : Store).length ∧
    (bin2cat (fun (_ cols : List String) => cols.filter (fun c => c ≠ "v")) [tblOneHotEx] 0
        ["A", "B"] "cat").1.get? 1 = ([tblOneHotEx] : Store).get? 1 :=
  bin2cat_mutates_in_place (fun (_ cols : List String) => cols.filter (fun c => c ≠ "v"))
    [tblOneHotEx] 0 1 ["A", "B"] "cat" tblOneHotEx
    (by decide) (by decide) (by decide) (by decide) (by decide) (by decide)

/-! ## Claim C9 -/

/-- The annotation values recorded for one file name (the row
`annotations.loc[file_name]` as column/value pairs). -/
def annsOf (anns : List (String × List (String × Value))) (name : String) :
    List (String × Value) :=
  ((anns.find? (fun q => q.1 = name)).getD ("", [])).2

/-- Behaviour of the `combine_dfs` loop on `pre ++ bad :: rest` when every
file of `pre` has annotations, `bad` has none, all frames match the
(nonempty) meta schema, and the frame references are distinct and valid:
the loop raises the missing-annotation error, every frame of `pre` has by
then been annotated in place, and no other reference was touched. -/
theorem combineLoop_error_after_prefix (anns : List (String × List (String × Value)))
    (bad : String × ℕ) (rest : List (String × ℕ))
    (hbad : anns.find? (fun q => q.1 = bad.1) = none) :
    ∀ (pre : List (String × ℕ)) (st : Store) (meta : List String) (comb : Table),
    meta ≠ [] →
    (∀ p ∈ pre ++ [bad], schemaOk meta (st.getD p.2 ⟨[], [], []⟩).cols = true) →
    (∀ p ∈ pre, (anns.find? (fun q => q.1 = p.1)).isSome = true) →
    ((pre ++ [bad]).map Prod.snd).Nodup →
    (∀ p ∈ pre, p.2 < st.length) →
    (combineLoop anns st meta comb (pre ++ bad :: rest)).2 = .error .missingAnnot ∧
    (∀ i, i < pre.length →
      (combineLoop anns st meta comb (pre ++ bad :: rest)).1.get? (pre.getD i ("", 0)).2
        = some (applyFileAnnots (st.getD (pre.getD i ("", 0)).2 ⟨[], [], []⟩)
            (annsOf anns (pre.getD i ("", 0)).1))) ∧
    (∀ r, r ∉ pre.map Prod.snd →
      (combineLoop anns st meta comb (pre ++ bad :: rest)).1.get? r = st.get? r) := by
  intro pre
  induction pre with
  | nil =>
      intro st meta comb hmne hschema _ _ _
      have hme : meta.isEmpty = false := by simp [List.isEmpty_iff, hmne]
      have hs := hschema bad (by simp)
      simp only [List.nil_append, combineLoop, hme, Bool.false_eq_true, if_false, hs,
        if_true, hbad]
      refine ⟨by trivial, ?_, ?_⟩
      · intro i hi
        simp at hi
      · intro r _
        trivial
  | cons p pre' ih =>
      intro st meta comb hmne hschema hpre hnd hval
      have hme : meta.isEmpty = false := by simp [List.isEmpty_iff, hmne]
      have hs := hschema p (by simp)
      obtain ⟨fa, hfa⟩ := Option.isSome_iff_exists.mp (hpre p (List.mem_cons_self _ _))
      have hpne : p.2 ∉ (pre' ++ [bad]).map Prod.snd := by
        have := hnd
        rw [List.cons_append, List.map_cons, List.nodup_cons] at this
        exact this.1
      have hpnepre : p.2 ∉ pre'.map Prod.snd := by
        intro hmem
        exact hpne (by rw [List.map_append]; exact List.mem_append_left _ hmem)
      have hpnebad : p.2 ≠ bad.2 := by
        intro he
        exact hpne (by rw [List.map_append]; exact List.mem_append_right _ (by simp [he]))
      have hgetD' : ∀ q ∈ pre' ++ [bad],
          ((st.set p.2 (applyFileAnnots (st.getD p.2 ⟨[], [], []⟩) fa.2)).getD q.2 ⟨[], [], []⟩)
            = st.getD q.2 ⟨[], [], []⟩ := by
        intro q hq
        apply getD_set_ne
        intro he
        rw [he] at hpne
        exact hpne (List.mem_map_of_mem Prod.snd hq)
      have ih' := ih (st.set p.2 (applyFileAnnots (st.getD p.2 ⟨[], [], []⟩) fa.2))
        meta (if comb.isEmpty then applyFileAnnots (st.getD p.2 ⟨[], [], []⟩) fa.2
          else concatAligned comb (applyFileAnnots (st.getD p.2 ⟨[], [], []⟩) fa.2))
        hmne
        (fun q hq => by rw [hgetD' q hq]; exact hschema q (by
          rcases List.mem_append.mp hq with h | h
          · exact List.mem_append_left _ (List.mem_cons_of_mem _ h)
          · exact List.mem_append_right _ h))
        (fun q hq => hpre q (List.mem_cons_of_mem _ hq))
        (by
          have := hnd
          rw [List.cons_append, List.map_cons, List.nodup_cons] at this
          exact this.2)
        (fun q hq => by rw [List.length_set]; exact hval q (List.mem_cons_of_mem _ hq))
      have hstep : combineLoop anns st meta comb ((p :: pre') ++ bad :: rest)
          = combineLoop anns (st.set p.2 (applyFileAnnots (st.getD p.2 ⟨[], [], []⟩) fa.2))
              meta (if comb.isEmpty then applyFileAnnots (st.getD p.2 ⟨[], [], []⟩) fa.2
                else concatAligned comb (applyFileAnnots (st.getD p.2 ⟨[], [], []⟩) fa.2))
              (pre' ++ bad :: rest) := by
        simp only [List.cons_append, combineLoop, hme, Bool.false_eq_true, if_false, hs,
          if_true, hfa]
        rfl
      rw [hstep]
      refine ⟨ih'.1, ?_, ?_⟩
      · intro i hi
        cases i with
        | zero =>
            simp only [List.getD_cons_zero]
            rw [ih'.2.2 p.2 hpnepre]
            rw [List.get?_eq_getElem?,
              List.getElem?_set_self (hval p (List.mem_cons_self _ _))]
            simp only [annsOf, hfa, Option.getD_some]
        | succ j =>
            simp only [List.getD_cons_succ]
            rw [ih'.2.1 j (by simpa using hi)]
            rw [hgetD' (pre'.getD j ("", 0))
              (List.mem_append_left _ (getD_mem_of_lt pre' j ("", 0) (by simpa using hi)))]
      · intro r hr
        have hr' : r ∉ pre'.map Prod.snd := by
          intro hmem
          exact hr (by rw [List.map_cons]; exact List.mem_cons_of_mem _ hmem)
        have hrp : r ≠ p.2 := by
          intro he
          exact hr (by rw [List.map_cons, he]; exact List.mem_cons_self _ _)
        rw [ih'.2.2 r hr', List.get?_eq_getElem?, List.get?_eq_getElem?,
          List.getElem?_set_ne (fun he => hrp he.symm)]

/-- Claim C9: `combine_dfs` writes each file's annotation values directly
into the referenced input frames (in place); when a later file name has no
entry in the annotations index the call fails with the missing-annotation
`ValueError`, and each input frame processed before the failure has already
been mutated — the store at its reference holds the original frame with the
annotation columns written in. -/
theorem combine_dfs_mutates_inputs (st : Store) (first : String × ℕ)
    (pre' : List (String × ℕ)) (bad : String × ℕ) (rest : List (String × ℕ))
    (anns : List (String × List (String × Value))) (i : ℕ)
    (hbad : anns.find? (fun q => q.1 = bad.1) = none)
    (hfc : (st.getD first.2 ⟨[], [], []⟩).cols ≠ [])
    (hschema : ∀ p ∈ (first :: pre') ++ [bad],
      schemaOk (st.getD first.2 ⟨[], [], []⟩).cols (st.getD p.2 ⟨[], [], []⟩).cols = true)
    (hpre : ∀ p ∈ first :: pre', (anns.find? (fun q => q.1 = p.1)).isSome = true)
    (hnd : (((first :: pre') ++ [bad]).map Prod.snd).Nodup)
    (hval : ∀ p ∈ first :: pre', p.2 < st.length)
    (hi : i < (first :: pre').length) :
    (combine_dfs st ((first :: pre') ++ bad :: rest) anns).2 = .error .missingAnnot ∧
    (combine_dfs st ((first :: pre') ++ bad :: rest) anns).1.get?
        ((first :: pre').getD i ("", 0)).2
      = some (applyFileAnnots (st.getD ((first :: pre').getD i ("", 0)).2 ⟨[], [], []⟩)
          (annsOf anns ((first :: pre').getD i ("", 0)).1)) := by
  obtain ⟨fa, hfa⟩ := Option.isSome_iff_exists.mp (hpre first (List.mem_cons_self _ _))
  have hpne : first.2 ∉ (pre' ++ [bad]).map Prod.snd := by
    have := hnd
    rw [List.cons_append, List.map_cons, List.nodup_cons] at this
    exact this.1
  have hpnepre : first.2 ∉ pre'.map Prod.snd := by
    intro hmem
    exact hpne (by rw [List.map_append]; exact List.mem_append_left _ hmem)
  have hgetD' : ∀ q ∈ pre' ++ [bad],
      ((st.set first.2 (applyFileAnnots (st.getD first.2 ⟨[], [], []⟩) fa.2)).getD q.2
        ⟨[], [], []⟩) = st.getD q.2 ⟨[], [], []⟩ := by
    intro q hq
    apply getD_set_ne
    intro he
    rw [he] at hpne
    exact hpne (List.mem_map_of_mem Prod.snd hq)
  have hstep : combine_dfs st ((first :: pre') ++ bad :: rest) anns
      = combineLoop anns
          (st.set first.2 (applyFileAnnots (st.getD first.2 ⟨[], [], []⟩) fa.2))
          (st.getD first.2 ⟨[], [], []⟩).cols
          (applyFileAnnots (st.getD first.2 ⟨[], [], []⟩) fa.2)
          (pre' ++ bad :: rest) := by
    have hrefl := schemaOk_refl (st.getD first.2 ⟨[], [], []⟩).cols
    have hempt : (⟨[], [], []⟩ : Table).isEmpty = true := rfl
    simp only [combine_dfs, List.cons_append, combineLoop, List.isEmpty_nil, if_true,
      hrefl, hfa, hempt]
    rfl
  have hloop := combineLoop_error_after_prefix anns bad rest hbad pre'
    (st.set first.2 (applyFileAnnots (st.getD first.2 ⟨[], [], []⟩) fa.2))
    (st.getD first.2 ⟨[], [], []⟩).cols
    (applyFileAnnots (st.getD first.2 ⟨[], [], []⟩) fa.2)
    hfc
    (fun q hq => by rw [hgetD' q hq]; exact hschema q (by
      rcases List.mem_append.mp hq with h | h
      · exact List.mem_append_left _ (List.mem_cons_of_mem _ h)
      · exact List.mem_append_right _ h))
    (fun q hq => hpre q (List.mem_cons_of_mem _ hq))
    (by
      have := hnd
      rw [List.cons_append, List.map_cons, List.nodup_cons] at this
      exact this.2)
    (fun q hq => by rw [List.length_set]; exact hval q (List.mem_cons_of_mem _ hq))
  rw [hstep]
  refine ⟨hloop.1, ?_⟩
  cases i with
  | zero =>
      simp only [List.getD_cons_zero]
      rw [hloop.2.2 first.2 hpnepre]
      rw [List.get?_eq_getElem?,
        List.getElem?_set_self (hval first (List.mem_cons_self _ _))]
      simp only [annsOf, hfa, Option.getD_some]
  | succ j =>
      simp only [List.getD_cons_succ]
      rw [hloop.2.1 j (by simpa using hi)]
      rw [hgetD' (pre'.getD j ("", 0))
        (List.mem_append_left _ (getD_mem_of_lt pre' j ("", 0) (by simpa using hi)))]

/-- Witness for C9: `f1`'s frame is annotated in place before the loop
fails on `f2`, whose name the annotations index lacks. -/
theorem combine_dfs_mutates_inputs_witness :
    (combine_dfs [tblOneRowEx, tblOneRowEx2] [("f1", 0), ("f2", 1)]
        [("f1", [("batch", .vStr "b1")])]).2 = .error .missingAnnot ∧
    (combine_dfs [tblOneRowEx, tblOneRowEx2] [("f1", 0), ("f2", 1)]
        [("f1", [("batch", .vStr "b1")])]).1.get? 0
      = some (applyFileAnnots (([tblOneRowEx, tblOneRowEx2] : Store).getD 0 ⟨[], [], []⟩)
          (annsOf [("f1", [("batch", .vStr "b1")])] "f1")) :=
  combine_dfs_mutates_inputs [tblOneRowEx, tblOneRowEx2] ("f1", 0) [] ("f2", 1) []
    [("f1", [("batch", .vStr "b1")])] 0
    (by decide) (by decide) (by decide) (by decide) (by decide) (by decide) (by decide)

end Spac
